import Mathlib

/-!
Verification of the AetherScript language front end
(lexer, parser, type checker, semantic analyzer).

Shallow embedding of the Python sources under
server/aetherscript/{parser/lexer.py, parser/parser.py, parser/ast.py,
analyzer/symbols.py, analyzer/type_checker.py, analyzer/semantic_analyzer.py}.
Python strings are modeled as List Char; mutable object state is passed
explicitly; every loop is realized as structural recursion on an explicit
fuel argument whose exhaustion branch is unreachable at the fuel bounds
the wrappers supply.
-/

namespace Aether

/-- Convert a Lean string literal to the List Char representation used here. -/
def cs (s : String) : List Char := s.data

/-- Python str.isspace restricted to the ASCII whitespace characters. -/
def isSpaceChar (c : Char) : Bool :=
  c == ' ' || c == '\t' || c == '\n' || c == '\r' || c == '\x0b' || c == '\x0c'

/-- Python str.isalpha (ASCII letters; the sources only ever feed ASCII). -/
def isAlphaChar (c : Char) : Bool := c.isAlpha

/-- Python str.isdigit (ASCII digits). -/
def isDigitChar (c : Char) : Bool := c.isDigit

/-- Python str.isalnum (ASCII letters and digits). -/
def isAlnumChar (c : Char) : Bool := c.isAlphanum

/-- The double-quote character. -/
def dq : Char := '"'

/-- The single-quote character (written via its code point). -/
def sq : Char := Char.ofNat 39

/-- The backslash character (written via its code point). -/
def bsl : Char := Char.ofNat 92

/-- TokenType from lexer.py. -/
inductive TokenType where
  | EOF | ERROR
  | IDENTIFIER | INTEGER | FLOAT | STRING
  | IF | ELSE | ELIF | WHILE | FOR | RETURN | BREAK | CONTINUE
  | FUNCTION | SPELL | RITUAL | CONJURE | ENTITY | REALM | DIMENSION
  | VOID | INT | FLOAT_TYPE | STRING_TYPE | BOOLEAN | ARRAY | MAP
  | ELEMENT | ENERGY | SPIRIT | MATTER
  | PLUS | MINUS | MULTIPLY | DIVIDE | MODULO | ASSIGN
  | EQUALS | NOT_EQUALS | LESS_THAN | GREATER_THAN | LESS_EQUAL | GREATER_EQUAL
  | AND | OR | NOT
  | LPAREN | RPAREN | LBRACE | RBRACE | LBRACKET | RBRACKET
  | COMMA | DOT | SEMICOLON | COLON
deriving DecidableEq

/-- Token from lexer.py: type, value (lexeme), 1-based line and column. -/
structure Token where
  type : TokenType
  value : List Char
  line : Nat
  column : Nat
deriving DecidableEq

/-- The keyword table of Lexer.__init__ (identifier spelling to token type). -/
def keywords : List (List Char × TokenType) :=
  [(cs "if", .IF), (cs "else", .ELSE), (cs "elif", .ELIF), (cs "while", .WHILE),
   (cs "for", .FOR), (cs "return", .RETURN), (cs "break", .BREAK),
   (cs "continue", .CONTINUE), (cs "function", .FUNCTION), (cs "spell", .SPELL),
   (cs "ritual", .RITUAL), (cs "conjure", .CONJURE), (cs "entity", .ENTITY),
   (cs "realm", .REALM), (cs "dimension", .DIMENSION), (cs "Void", .VOID),
   (cs "Int", .INT), (cs "Float", .FLOAT_TYPE), (cs "String", .STRING_TYPE),
   (cs "Boolean", .BOOLEAN), (cs "Array", .ARRAY), (cs "Map", .MAP),
   (cs "Element", .ELEMENT), (cs "Energy", .ENERGY), (cs "Spirit", .SPIRIT),
   (cs "Matter", .MATTER)]

/-- Keyword dict lookup (self.keywords.get(result, IDENTIFIER), here with
the default applied by the caller). -/
def keywordType (s : List Char) : Option TokenType :=
  (keywords.find? (fun kv => kv.1 == s)).map (fun kv => kv.2)

/-- Advance a (line, column) pair across one consumed character, exactly as
Lexer.advance does: a newline bumps the line and resets the column to 1,
every other character bumps the column. -/
def advLC1 (p : Nat × Nat) (ch : Char) : Nat × Nat :=
  if ch = '\n' then (p.1 + 1, 1) else (p.1, p.2 + 1)

/-- Advance a (line, column) pair across a list of consumed characters. -/
def advLC (line col : Nat) (chars : List Char) : Nat × Nat :=
  chars.foldl advLC1 (line, col)

/-- Lexer.identifier loop: take the alnum/underscore run. Returns the
consumed characters and the remaining input. -/
def takeIdent : List Char → List Char × List Char
  | [] => ([], [])
  | c :: r =>
    if isAlnumChar c || c == '_' then
      let p := takeIdent r
      (c :: p.1, p.2)
    else ([], c :: r)

/-- Result of the numeric-literal scan. -/
structure NumScan where
  consumed : List Char
  rem : List Char
  isFloat : Bool
deriving DecidableEq

/-- Lexer.number loop: digits with at most one decimal point; a second
point stops the scan. The flag records whether a point was seen. -/
def takeNum : List Char → Bool → NumScan
  | [], f => ⟨[], [], f⟩
  | c :: r, f =>
    if isDigitChar c then
      let p := takeNum r f
      ⟨c :: p.consumed, p.rem, p.isFloat⟩
    else if c == '.' then
      if f then ⟨[], c :: r, f⟩
      else
        let p := takeNum r true
        ⟨c :: p.consumed, p.rem, p.isFloat⟩
    else ⟨[], c :: r, f⟩

/-- Result of the string-literal scan after the opening quote. -/
structure StrScan where
  value : List Char
  consumed : List Char
  rem : List Char
  closed : Bool
deriving DecidableEq

/-- The escape table of Lexer.string; unknown escapes map to themselves. -/
def escMap (c : Char) : Char :=
  if c = 'n' then '\n'
  else if c = 't' then '\t'
  else if c = 'r' then '\r'
  else c

/-- Lexer.string loop after the opening quote: collect characters until the
matching quote, translating escape sequences; running out of input leaves
the literal unterminated. -/
def strScan (q : Char) : List Char → StrScan
  | [] => ⟨[], [], [], false⟩
  | c :: r =>
    if c = q then ⟨[], [c], r, true⟩
    else if c = bsl then
      match r with
      | [] => ⟨[c], [c], [], false⟩
      | e :: r' =>
        let p := strScan q r'
        ⟨escMap e :: p.value, c :: e :: p.consumed, p.rem, p.closed⟩
    else
      let p := strScan q r
      ⟨c :: p.value, c :: p.consumed, p.rem, p.closed⟩

/-- Block-comment scan after the opening slash-star: consume through the
closing star-slash, or to the end of input. -/
def blockRest : List Char → List Char × List Char
  | [] => ([], [])
  | c :: r =>
    if c = '*' ∧ r.head? = some '/' then (['*', '/'], r.tail)
    else
      let p := blockRest r
      (c :: p.1, p.2)

/-- One step of Lexer.tokenize: the optional token it appends, the
characters it consumes, and the remaining input. -/
structure ScanRes where
  tok? : Option Token
  consumed : List Char
  rem : List Char
deriving DecidableEq

/-- The guard of some branch of the tokenize dispatch: exactly the
characters the elif chain of Lexer.tokenize recognizes at the head of the
input (the final catch-all emits an ERROR token). -/
def MatchesRule (c : Char) (l : List Char) : Prop :=
  isSpaceChar c = true ∨
  (c = '/' ∧ (l.head? = some '/' ∨ l.head? = some '*')) ∨
  (isAlphaChar c = true ∨ c = '_') ∨
  isDigitChar c = true ∨
  (c = dq ∨ c = sq) ∨
  c = '+' ∨ c = '-' ∨ c = '*' ∨ c = '/' ∨ c = '%' ∨
  c = '=' ∨ c = '!' ∨ c = '<' ∨ c = '>' ∨
  (c = '&' ∧ l.head? = some '&') ∨ (c = '|' ∧ l.head? = some '|') ∨
  c = '(' ∨ c = ')' ∨ c = '{' ∨ c = '}' ∨ c = '[' ∨ c = ']' ∨
  c = ',' ∨ c = '.' ∨ c = ';' ∨ c = ':'

instance (c : Char) (l : List Char) : Decidable (MatchesRule c l) := by
  unfold MatchesRule; infer_instance

/-- One iteration of the Lexer.tokenize while-loop on head character c and
tail l, at position (line, col). Mirrors the elif chain of tokenize
together with the helpers skip_whitespace, skip_comment, identifier,
number and string. -/
def scanToken (c : Char) (l : List Char) (line col : Nat) : ScanRes :=
  if isSpaceChar c = true then
    ⟨none, (c :: l).takeWhile isSpaceChar, (c :: l).dropWhile isSpaceChar⟩
  else if c = '/' ∧ l.head? = some '/' then
    ⟨none, (c :: l).takeWhile (fun x => !(x == '\n')),
      (c :: l).dropWhile (fun x => !(x == '\n'))⟩
  else if c = '/' ∧ l.head? = some '*' then
    let p := blockRest l.tail
    ⟨none, c :: '*' :: p.1, p.2⟩
  else if isAlphaChar c = true ∨ c = '_' then
    let p := takeIdent (c :: l)
    ⟨some ⟨(keywordType p.1).getD .IDENTIFIER, p.1, line, col⟩, p.1, p.2⟩
  else if isDigitChar c = true then
    let p := takeNum (c :: l) false
    let v := if p.consumed.getLast? = some '.' then p.consumed ++ ['0'] else p.consumed
    ⟨some ⟨if p.isFloat then .FLOAT else .INTEGER, v, line, col⟩, p.consumed, p.rem⟩
  else if c = dq ∨ c = sq then
    let p := strScan c l
    ⟨some ⟨if p.closed then .STRING else .ERROR, p.value, line, col⟩,
      c :: p.consumed, p.rem⟩
  else if c = '+' then ⟨some ⟨.PLUS, [c], line, col⟩, [c], l⟩
  else if c = '-' then ⟨some ⟨.MINUS, [c], line, col⟩, [c], l⟩
  else if c = '*' then ⟨some ⟨.MULTIPLY, [c], line, col⟩, [c], l⟩
  else if c = '/' then ⟨some ⟨.DIVIDE, [c], line, col⟩, [c], l⟩
  else if c = '%' then ⟨some ⟨.MODULO, [c], line, col⟩, [c], l⟩
  else if c = '=' then
    if l.head? = some '=' then ⟨some ⟨.EQUALS, ['=', '='], line, col⟩, ['=', '='], l.tail⟩
    else ⟨some ⟨.ASSIGN, [c], line, col⟩, [c], l⟩
  else if c = '!' then
    if l.head? = some '=' then ⟨some ⟨.NOT_EQUALS, ['!', '='], line, col⟩, ['!', '='], l.tail⟩
    else ⟨some ⟨.NOT, [c], line, col⟩, [c], l⟩
  else if c = '<' then
    if l.head? = some '=' then ⟨some ⟨.LESS_EQUAL, ['<', '='], line, col⟩, ['<', '='], l.tail⟩
    else ⟨some ⟨.LESS_THAN, [c], line, col⟩, [c], l⟩
  else if c = '>' then
    if l.head? = some '=' then ⟨some ⟨.GREATER_EQUAL, ['>', '='], line, col⟩, ['>', '='], l.tail⟩
    else ⟨some ⟨.GREATER_THAN, [c], line, col⟩, [c], l⟩
  else if c = '&' ∧ l.head? = some '&' then
    ⟨some ⟨.AND, ['&', '&'], line, col⟩, ['&', '&'], l.tail⟩
  else if c = '|' ∧ l.head? = some '|' then
    ⟨some ⟨.OR, ['|', '|'], line, col⟩, ['|', '|'], l.tail⟩
  else if c = '(' then ⟨some ⟨.LPAREN, [c], line, col⟩, [c], l⟩
  else if c = ')' then ⟨some ⟨.RPAREN, [c], line, col⟩, [c], l⟩
  else if c = '{' then ⟨some ⟨.LBRACE, [c], line, col⟩, [c], l⟩
  else if c = '}' then ⟨some ⟨.RBRACE, [c], line, col⟩, [c], l⟩
  else if c = '[' then ⟨some ⟨.LBRACKET, [c], line, col⟩, [c], l⟩
  else if c = ']' then ⟨some ⟨.RBRACKET, [c], line, col⟩, [c], l⟩
  else if c = ',' then ⟨some ⟨.COMMA, [c], line, col⟩, [c], l⟩
  else if c = '.' then ⟨some ⟨.DOT, [c], line, col⟩, [c], l⟩
  else if c = ';' then ⟨some ⟨.SEMICOLON, [c], line, col⟩, [c], l⟩
  else if c = ':' then ⟨some ⟨.COLON, [c], line, col⟩, [c], l⟩
  else ⟨some ⟨.ERROR, [c], line, col⟩, [c], l⟩

/-- The Lexer.tokenize loop; the fuel argument only realizes termination
and is unreachable at the bound tokenize supplies. Both the exhausted
input and the exhausted fuel produce the single trailing EOF token. -/
def tokenizeAux : Nat → List Char → Nat → Nat → List Token
  | 0, _, line, col => [⟨.EOF, [], line, col⟩]
  | _ + 1, [], line, col => [⟨.EOF, [], line, col⟩]
  | n + 1, c :: l, line, col =>
    let r := scanToken c l line col
    let lc := advLC line col r.consumed
    (match r.tok? with
     | some t => [t]
     | none => []) ++ tokenizeAux n r.rem lc.1 lc.2

/-- Lexer.tokenize: lex a whole source text starting at line 1, column 1. -/
def tokenize (src : List Char) : List Token :=
  tokenizeAux (src.length + 1) src 1 1

/-- Expression nodes from ast.py. Float literals keep their raw lexeme:
the analyzers never look at the numeric value. -/
inductive Expr where
  | ident (name : List Char) (line column : Nat)
  | intLit (value : Int) (line column : Nat)
  | floatLit (raw : List Char) (line column : Nat)
  | strLit (value : List Char) (line column : Nat)
  | boolLit (value : Bool) (line column : Nat)
  | binary (left : Expr) (op : List Char) (right : Expr) (line column : Nat)
  | unary (op : List Char) (right : Expr) (line column : Nat)
  | call (callee : Expr) (args : List Expr) (line column : Nat)
  | assign (target : Expr) (value : Expr) (line column : Nat)
  | arrayLit (elems : List Expr) (line column : Nat)
  | indexE (arr : Expr) (idx : Expr) (line column : Nat)

/-- Line of an expression node. -/
def Expr.line : Expr → Nat
  | .ident _ l _ | .intLit _ l _ | .floatLit _ l _ | .strLit _ l _
  | .boolLit _ l _ | .binary _ _ _ l _ | .unary _ _ l _ | .call _ _ l _
  | .assign _ _ l _ | .arrayLit _ l _ | .indexE _ _ l _ => l

/-- Column of an expression node. -/
def Expr.column : Expr → Nat
  | .ident _ _ c | .intLit _ _ c | .floatLit _ _ c | .strLit _ _ c
  | .boolLit _ _ c | .binary _ _ _ _ c | .unary _ _ _ c | .call _ _ _ c
  | .assign _ _ _ c | .arrayLit _ _ c | .indexE _ _ _ c => c

/-- Parameter node from ast.py; the parameter name keeps its own position
because the semantic analyzer records the definition there. -/
structure Param where
  name : List Char
  nameLine : Nat
  nameCol : Nat
  annot : List Char
deriving DecidableEq

/-- Statement nodes from ast.py. The for-statement initializer (variable
declaration or bare expression) is held as a statement; a bare expression
travels as an expression statement, which both walkers treat identically
to visiting the expression. -/
inductive Stmt where
  | varDecl (name : List Char) (annot : Option (List Char)) (init : Option Expr)
      (line column : Nat)
  | funDecl (name : List Char) (params : List Param) (retType : List Char)
      (body : List Stmt) (line column : Nat)
  | ret (value : Option Expr) (line column : Nat)
  | block (stmts : List Stmt) (line column : Nat)
  | ifS (cond : Expr) (thenB : Stmt) (elseB : Option Stmt) (line column : Nat)
  | whileS (cond : Expr) (body : Stmt) (line column : Nat)
  | forS (fInit : Option Stmt) (cond : Option Expr) (incr : Option Expr)
      (body : Stmt) (line column : Nat)
  | exprStmt (e : Expr) (line column : Nat)

/-- ParseError from parser.py: the offending token and a message. -/
structure PError where
  token : Token
  message : List Char
deriving DecidableEq

/-- Parser state: the token list produced by the lexer and the index of
the current token (Parser.tokens, Parser.current). -/
structure PState where
  tokens : List Token
  current : Nat

/-- Parser.peek; out-of-range indices read as the trailing EOF token
(Python never indexes out of range because the stream ends with EOF and
advance stops there). -/
def peekT (st : PState) : Token :=
  st.tokens.getD st.current ⟨.EOF, [], 0, 0⟩

/-- Parser.previous. -/
def prevT (st : PState) : Token :=
  st.tokens.getD (st.current - 1) ⟨.EOF, [], 0, 0⟩

/-- Parser.is_at_end. -/
def isAtEnd (st : PState) : Prop := (peekT st).type = .EOF

instance (st : PState) : Decidable (isAtEnd st) := by
  unfold isAtEnd; infer_instance

/-- Parser.advance (the consumed token is read off with peekT beforehand). -/
def advanceT (st : PState) : PState :=
  if isAtEnd st then st else { st with current := st.current + 1 }

/-- Parser.check. -/
def checkT (st : PState) (t : TokenType) : Prop :=
  ¬ isAtEnd st ∧ (peekT st).type = t

instance (st : PState) (t : TokenType) : Decidable (checkT st t) := by
  unfold checkT; infer_instance

/-- Parser.consume: return the matched token and advance, or raise. The
raised ParseError carries the parser state at the raise site. -/
def consumeT (st : PState) (t : TokenType) (msg : List Char) :
    Except (PError × PState) (Token × PState) :=
  if checkT st t then .ok (peekT st, advanceT st)
  else .error (⟨peekT st, msg⟩, st)

/-- Digits of an integer lexeme to its value (Python int()). -/
def digitsToInt (l : List Char) : Int :=
  l.foldl (fun a c => a * 10 + (c.toNat - 48)) 0

/-- Parser.primary: literals, identifiers and parenthesized expressions;
anything else advances and raises. The placeholder Parser.expression just
delegates here, so the parenthesized branch recurses with one unit of
fuel (nesting depth is bounded by the token count). -/
def primaryF : Nat → PState → Except (PError × PState) (Expr × PState)
  | 0, st => .error (⟨peekT st, cs "fuel"⟩, st)
  | n + 1, st =>
    let token := peekT st
    if token.type = .INTEGER then
      .ok (.intLit (digitsToInt token.value) token.line token.column, advanceT st)
    else if token.type = .FLOAT then
      .ok (.floatLit token.value token.line token.column, advanceT st)
    else if token.type = .STRING then
      .ok (.strLit token.value token.line token.column, advanceT st)
    else if token.type = .IDENTIFIER then
      .ok (.ident token.value token.line token.column, advanceT st)
    else if token.type = .LPAREN then
      match primaryF n (advanceT st) with
      | .error e => .error e
      | .ok (e, st2) =>
        match consumeT st2 .RPAREN (cs "Expected ')' after expression.") with
        | .error er => .error er
        | .ok (_, st3) => .ok (e, st3)
    else
      .error (⟨token, cs "Unexpected token: " ++ token.value⟩, advanceT st)

/-- Parser.expression (placeholder: delegates to primary). -/
def expressionF (n : Nat) (st : PState) : Except (PError × PState) (Expr × PState) :=
  primaryF n st

/-- Parser.expression_statement. -/
def exprStmtF (n : Nat) (st : PState) : Except (PError × PState) (Stmt × PState) :=
  match expressionF n st with
  | .error e => .error e
  | .ok (e, st1) =>
    match consumeT st1 .SEMICOLON (cs "Expected ';' after expression.") with
    | .error er => .error er
    | .ok (_, st2) => .ok (.exprStmt e e.line e.column, st2)

/-- Parser.statement (placeholder: delegates to expression_statement). -/
def statementF (n : Nat) (st : PState) : Except (PError × PState) (Stmt × PState) :=
  exprStmtF n st

/-- Parser.declaration (placeholder: delegates to statement), with the
fuel bound every caller uses. -/
def declP (st : PState) : Except (PError × PState) (Stmt × PState) :=
  statementF (st.tokens.length + 1) st

/-- The token types that synchronize treats as statement starts. -/
def startTypes : List TokenType :=
  [.FUNCTION, .SPELL, .IF, .WHILE, .FOR, .RETURN]

/-- The while-loop of Parser.synchronize. -/
def syncLoopF : Nat → PState → PState
  | 0, st => st
  | n + 1, st =>
    if isAtEnd st then st
    else if (prevT st).type = .SEMICOLON then st
    else if (peekT st).type ∈ startTypes then st
    else syncLoopF n (advanceT st)

/-- Parser.synchronize: one unconditional advance, then skip to a
plausible statement boundary. -/
def synchronizeP (st : PState) : PState :=
  syncLoopF (st.tokens.length + 1) (advanceT st)

/-- The while-loop of Parser.parse: collect statements, catching each
ParseError, recording it and synchronizing. -/
def parseLoopF : Nat → PState → List Stmt × List PError
  | 0, _ => ([], [])
  | n + 1, st =>
    if isAtEnd st then ([], [])
    else
      match declP st with
      | .ok (s, st') =>
        let r := parseLoopF n st'
        (s :: r.1, r.2)
      | .error (e, st') =>
        let r := parseLoopF n (synchronizeP st')
        (r.1, e :: r.2)

/-- Parser.parse over an explicit token list. -/
def parseTokens (toks : List Token) : List Stmt × List PError :=
  parseLoopF (toks.length + 1) ⟨toks, 0⟩

/-- Parser(source).parse(): lex, then parse. The first component is the
Program statement list, the second the collected parse errors. -/
def parseSource (src : List Char) : List Stmt × List PError :=
  parseTokens (tokenize src)

/-- Symbols from symbols.py: a VariableSymbol or a FunctionSymbol. -/
inductive Symbol where
  | varS (name type_name : List Char) (is_mutable : Bool)
  | funcS (name type_name : List Char) (params : List Symbol) (is_builtin : Bool)

/-- Name of a symbol (the dict key used by SymbolTable.define). -/
def symName : Symbol → List Char
  | .varS n _ _ => n
  | .funcS n _ _ _ => n

/-- Declared type label of a symbol. -/
def symTypeName : Symbol → List Char
  | .varS _ t _ => t
  | .funcS _ t _ _ => t

/-- Whether a symbol is a VariableSymbol with is_mutable set to False
(the only case visit_assignment_expression flags as immutable). -/
def isImmutableVar : Symbol → Bool
  | .varS _ _ m => !m
  | .funcS _ _ _ _ => false

/-- Whether an optional symbol is a FunctionSymbol. -/
def isFuncSymO : Option Symbol → Bool
  | some (.funcS _ _ _ _) => true
  | _ => false

/-- One scope of a SymbolTable: its ordered name-to-symbol dict. -/
def Frame := List Symbol

/-- Dict assignment symbols[name] = sym: replace an existing binding of the
same name in place, else append. -/
def frameSet : List Symbol → Symbol → List Symbol
  | [], s => [s]
  | t :: r, s => if symName t = symName s then s :: r else t :: frameSet r s

/-- Dict lookup by name inside one scope (SymbolTable.resolve_local). -/
def lookupFrame (f : List Symbol) (name : List Char) : Option Symbol :=
  f.find? (fun t => symName t == name)

/-- The chain of scopes from current (head) to root (last): the parent
pointers of symbols.py realized as a stack. -/
def Scopes := List (List Symbol)

/-- SymbolTable.resolve: current scope first, then the parents. -/
def resolveS : List (List Symbol) → List Char → Option Symbol
  | [], _ => none
  | f :: p, name =>
    match lookupFrame f name with
    | some s => some s
    | none => resolveS p name

/-- SymbolTable.contains_local on the current scope. -/
def containsLocal (s : List (List Symbol)) (name : List Char) : Bool :=
  (lookupFrame (s.headD []) name).isSome

/-- SymbolTable.define on the current scope. An empty scope stack never
arises (the analyzers always hold at least the root); defining into it is
a no-op. -/
def defineS (s : List (List Symbol)) (sym : Symbol) : List (List Symbol) :=
  match s with
  | [] => []
  | f :: p => frameSet f sym :: p

/-- TypeError from type_checker.py. -/
structure TypeErr where
  message : List Char
  line : Nat
  column : Nat
deriving DecidableEq

/-- TypeChecker state: its symbol-table scope chain, accumulated errors
and the enclosing function, if any. -/
structure TC where
  scopes : List (List Symbol)
  errors : List TypeErr
  currentFunction : Option Symbol

/-- Append one type error. -/
def pushErr (st : TC) (msg : List Char) (line col : Nat) : TC :=
  { st with errors := st.errors ++ [⟨msg, line, col⟩] }

/-- The built-in known-types set of TypeChecker.__init__. -/
def knownTypes : List (List Char) :=
  [cs "Void", cs "Int", cs "Float", cs "String", cs "Boolean",
   cs "Array", cs "Map", cs "Element", cs "Energy", cs "Spirit", cs "Matter"]

/-- The built-in print function symbol installed by _init_builtins. -/
def printSym : Symbol :=
  .funcS (cs "print") (cs "Void") [.varS (cs "value") (cs "Any") true] true

/-- TypeChecker() initial state: root scope holding the built-in print. -/
def tcInit : TC := ⟨[[printSym]], [], none⟩

/-- Number rendering for error messages (Python str interpolation). -/
def natStr (n : Nat) : List Char := (Nat.repr n).data

/-- The binary-operator result described by visit_binary_expression, read
off the specification text of section 4.4: arithmetic on two Ints gives
Int, on a numeric mix gives Float, plus with a String operand gives
String; any comparison gives Boolean; everything else is an error. This
definition follows the spec wording and is proved to agree with the
embedded checker. -/
def specBinaryType (op lt rt : List Char) : Option (List Char) :=
  if op ∈ [cs "+", cs "-", cs "*", cs "/"] then
    if lt = cs "Int" ∧ rt = cs "Int" then some (cs "Int")
    else if lt ∈ [cs "Int", cs "Float"] ∧ rt ∈ [cs "Int", cs "Float"] then some (cs "Float")
    else if op = cs "+" ∧ (lt = cs "String" ∨ rt = cs "String") then some (cs "String")
    else none
  else if op ∈ [cs "==", cs "!=", cs "<", cs ">", cs "<=", cs ">="] then
    some (cs "Boolean")
  else none

/-- Does a type label start with the six characters Array< (the prefix
test of visit_index_expression)? -/
def startsArray : List Char → Bool
  | 'A' :: 'r' :: 'r' :: 'a' :: 'y' :: '<' :: _ => true
  | _ => false

/-- TypeChecker expression visitor (visit_identifier through
visit_index_expression): computes the expression type and threads the
checker state. Fuel bounds the AST depth; sub-expression lists are walked
with foldl at the decremented fuel. -/
def tcExprF : Nat → TC → Expr → List Char × TC
  | 0, st, _ => (cs "Unknown", st)
  | n + 1, st, e =>
    match e with
    | .ident name line col =>
      match resolveS st.scopes name with
      | none =>
        (cs "Unknown",
         pushErr st (cs "Undefined identifier '" ++ name ++ cs "'") line col)
      | some s => (symTypeName s, st)
    | .intLit _ _ _ => (cs "Int", st)
    | .floatLit _ _ _ => (cs "Float", st)
    | .strLit _ _ _ => (cs "String", st)
    | .boolLit _ _ _ => (cs "Boolean", st)
    | .binary l op r line col =>
      let pl := tcExprF n st l
      let pr := tcExprF n pl.2 r
      let lt := pl.1
      let rt := pr.1
      if op ∈ [cs "+", cs "-", cs "*", cs "/"] then
        if lt = cs "Int" ∧ rt = cs "Int" then (cs "Int", pr.2)
        else if lt ∈ [cs "Int", cs "Float"] ∧ rt ∈ [cs "Int", cs "Float"] then
          (cs "Float", pr.2)
        else if op = cs "+" ∧ (lt = cs "String" ∨ rt = cs "String") then
          (cs "String", pr.2)
        else
          (cs "Unknown",
           pushErr pr.2 (cs "Cannot apply operator '" ++ op ++ cs "' to types '" ++
             lt ++ cs "' and '" ++ rt ++ cs "'") line col)
      else if op ∈ [cs "==", cs "!=", cs "<", cs ">", cs "<=", cs ">="] then
        (cs "Boolean", pr.2)
      else
        (cs "Unknown",
         pushErr pr.2 (cs "Cannot apply operator '" ++ op ++ cs "' to types '" ++
           lt ++ cs "' and '" ++ rt ++ cs "'") line col)
    | .unary op r line col =>
      let pr := tcExprF n st r
      let rt := pr.1
      if op = cs "-" ∧ rt ∈ [cs "Int", cs "Float"] then (rt, pr.2)
      else if op = cs "!" ∧ rt = cs "Boolean" then (cs "Boolean", pr.2)
      else
        (cs "Unknown",
         pushErr pr.2 (cs "Cannot apply unary operator '" ++ op ++
           cs "' to type '" ++ rt ++ cs "'") line col)
    | .call callee args line col =>
      let pc := tcExprF n st callee
      let st1 := pc.2
      match callee with
      | .ident fn _ _ =>
        (match resolveS st1.scopes fn with
         | none =>
           (cs "Unknown",
            pushErr st1 (cs "Undefined function '" ++ fn ++ cs "'") line col)
         | some (.varS _ _ _) =>
           (cs "Unknown",
            pushErr st1 (cs "Cannot call non-function '" ++ fn ++ cs "'") line col)
         | some (.funcS _ tn ps _) =>
           if args.length ≠ ps.length then
             (tn,
              pushErr st1 (cs "Function '" ++ fn ++ cs "' expects " ++
                natStr ps.length ++ cs " arguments, but got " ++
                natStr args.length) line col)
           else
             let r := (args.zip ps).foldl
               (fun (acc : TC × Nat) pr =>
                 let pa := tcExprF n acc.1 pr.1
                 let acc' :=
                   if pa.1 ≠ symTypeName pr.2 ∧ symTypeName pr.2 ≠ cs "Any" then
                     pushErr pa.2 (cs "Argument " ++ natStr (acc.2 + 1) ++
                       cs " to function '" ++ fn ++ cs "' must be of type '" ++
                       symTypeName pr.2 ++ cs "', got '" ++ pa.1 ++ cs "'")
                       pr.1.line pr.1.column
                   else pa.2
                 (acc', acc.2 + 1)) (st1, 0)
             (tn, r.1))
      | _ =>
        (cs "Unknown",
         pushErr st1 (cs "Expression of type '" ++ pc.1 ++
           cs "' is not callable") line col)
    | .assign target value line col =>
      match target with
      | .ident vn _ _ =>
        (match resolveS st.scopes vn with
         | none =>
           (cs "Unknown",
            pushErr st (cs "Undefined variable '" ++ vn ++ cs "'") line col)
         | some s =>
           let st1 :=
             if isImmutableVar s then
               pushErr st (cs "Cannot assign to immutable variable '" ++ vn ++ cs "'")
                 line col
             else st
           let pv := tcExprF n st1 value
           let st2 :=
             if pv.1 ≠ symTypeName s then
               pushErr pv.2 (cs "Cannot assign a value of type '" ++ pv.1 ++
                 cs "' to a variable of type '" ++ symTypeName s ++ cs "'") line col
             else pv.2
           (symTypeName s, st2))
      | _ =>
        (cs "Unknown", pushErr st (cs "Invalid assignment target") line col)
    | .arrayLit elems _ _ =>
      match elems with
      | [] => (cs "Array<Any>", st)
      | e0 :: rest =>
        let p0 := tcExprF n st e0
        let et := p0.1
        let st' := rest.foldl
          (fun a el =>
            let pe := tcExprF n a el
            if pe.1 ≠ et then
              pushErr pe.2 (cs "Array elements must all have the same type. Expected '" ++
                et ++ cs "', got '" ++ pe.1 ++ cs "'") el.line el.column
            else pe.2) p0.2
        (cs "Array<" ++ et ++ cs ">", st')
    | .indexE arr idx line col =>
      let pa := tcExprF n st arr
      let pi := tcExprF n pa.2 idx
      if !startsArray pa.1 then
        (cs "Unknown",
         pushErr pi.2 (cs "Cannot index into non-array type '" ++ pa.1 ++ cs "'")
           line col)
      else
        let st' :=
          if pi.1 ≠ cs "Int" then
            pushErr pi.2 (cs "Array index must be an Int, got '" ++ pi.1 ++ cs "'")
              idx.line idx.column
          else pi.2
        ((pa.1.drop 6).dropLast, st')

/-- TypeChecker statement visitor. Scope discipline follows the source:
save the current scope chain, install a child, walk, restore the saved
chain (inner defines only ever touch the innermost scope, so restoring
the saved value is exactly the Python pointer restore). The function
symbol's parameter list, which the source grows by mutation while
defining the parameters, is precomputed from the parameter nodes. -/
def tcStmtF : Nat → TC → Stmt → TC
  | 0, st, _ => st
  | n + 1, st, s =>
    match s with
    | .varDecl name annot init line col =>
      let pInit :=
        match init with
        | none => (cs "Void", st)
        | some e => tcExprF n st e
      let st1 := pInit.2
      let st2 :=
        match annot with
        | none => st1
        | some a =>
          if a ∉ knownTypes then
            pushErr st1 (cs "Unknown type '" ++ a ++ cs "'") line col
          else if init.isSome ∧ pInit.1 ≠ a then
            pushErr st1 (cs "Cannot assign a value of type '" ++ pInit.1 ++
              cs "' to a variable of type '" ++ a ++ cs "'") line col
          else st1
      let vt := annot.getD pInit.1
      if containsLocal st2.scopes name then
        pushErr st2 (cs "Variable '" ++ name ++
          cs "' is already defined in this scope") line col
      else { st2 with scopes := defineS st2.scopes (.varS name vt true) }
    | .funDecl name params retType body line col =>
      let ps := params.map (fun p => Symbol.varS p.name p.annot true)
      let fsym := Symbol.funcS name retType ps false
      let st1 :=
        if containsLocal st.scopes name then
          pushErr st (cs "Function '" ++ name ++
            cs "' is already defined in this scope") line col
        else { st with scopes := defineS st.scopes fsym }
      let saved := st1.scopes
      let savedFn := st1.currentFunction
      let st2 := { st1 with scopes := [] :: st1.scopes, currentFunction := some fsym }
      let st3 := ps.foldl (fun a q => { a with scopes := defineS a.scopes q }) st2
      let st4 := body.foldl (fun a q => tcStmtF n a q) st3
      { st4 with scopes := saved, currentFunction := savedFn }
    | .ret value line col =>
      match st.currentFunction with
      | none => pushErr st (cs "Return statement outside of function") line col
      | some f =>
        match value with
        | none =>
          if symTypeName f ≠ cs "Void" then
            pushErr st (cs "Function '" ++ symName f ++
              cs "' must return a value of type '" ++ symTypeName f ++ cs "'") line col
          else st
        | some v =>
          let pv := tcExprF n st v
          if pv.1 ≠ symTypeName f then
            pushErr pv.2 (cs "Cannot return a value of type '" ++ pv.1 ++
              cs "' from a function with return type '" ++ symTypeName f ++ cs "'")
              line col
          else pv.2
    | .block stmts _ _ =>
      let saved := st.scopes
      let st1 := { st with scopes := [] :: st.scopes }
      let st2 := stmts.foldl (fun a q => tcStmtF n a q) st1
      { st2 with scopes := saved }
    | .ifS cond thenB elseB _ _ =>
      let pc := tcExprF n st cond
      let st1 :=
        if pc.1 ≠ cs "Boolean" then
          pushErr pc.2 (cs "If condition must be a Boolean, got '" ++ pc.1 ++ cs "'")
            cond.line cond.column
        else pc.2
      let st2 := tcStmtF n st1 thenB
      match elseB with
      | none => st2
      | some e => tcStmtF n st2 e
    | .whileS cond body _ _ =>
      let pc := tcExprF n st cond
      let st1 :=
        if pc.1 ≠ cs "Boolean" then
          pushErr pc.2 (cs "While condition must be a Boolean, got '" ++ pc.1 ++ cs "'")
            cond.line cond.column
        else pc.2
      tcStmtF n st1 body
    | .forS fInit cond incr body _ _ =>
      let saved := st.scopes
      let st1 := { st with scopes := [] :: st.scopes }
      let st2 :=
        match fInit with
        | none => st1
        | some q => tcStmtF n st1 q
      let st3 :=
        match cond with
        | none => st2
        | some c =>
          let pc := tcExprF n st2 c
          if pc.1 ≠ cs "Boolean" then
            pushErr pc.2 (cs "For condition must be a Boolean, got '" ++ pc.1 ++ cs "'")
              c.line c.column
          else pc.2
      let st4 :=
        match incr with
        | none => st3
        | some i => (tcExprF n st3 i).2
      let st5 := tcStmtF n st4 body
      { st5 with scopes := saved }
    | .exprStmt e _ _ => (tcExprF n st e).2

/-- TypeChecker.visit_program: the statements in order. -/
def tcStmtsF (n : Nat) (st : TC) (stmts : List Stmt) : TC :=
  stmts.foldl (fun a q => tcStmtF n a q) st

/-- Fuel bound for whole-program runs: far deeper than any program in this
development nests (fuel counts AST nesting depth only). -/
def runFuel : Nat := 100

/-- TypeChecker().check(program): the collected type errors. -/
def tcCheckProgram (prog : List Stmt) : List TypeErr :=
  (tcStmtsF runFuel tcInit prog).errors

/-- Location from semantic_analyzer.py. -/
structure Location where
  line : Nat
  column : Nat
deriving DecidableEq

/-- Definition record from semantic_analyzer.py. -/
structure Definition where
  name : List Char
  kind : List Char
  location : Location
  type_name : List Char
  detail : List Char
deriving DecidableEq

/-- Reference record from semantic_analyzer.py: a usage site bound to the
definition discovered at the site. -/
structure Reference where
  name : List Char
  location : Location
  definition : Definition
deriving DecidableEq

/-- SemanticAnalyzer state: scope chain, recorded definitions in record
order (the source keys them by name in a dict of lists; the per-name
sublists, which are all the queries read, are recovered by filtering),
references, error strings, enclosing function. -/
structure Sem where
  scopes : List (List Symbol)
  defs : List Definition
  refs : List Reference
  errors : List (List Char)
  currentFunction : Option Symbol

/-- The pre-recorded definition of the built-in print. -/
def printDef : Definition :=
  ⟨cs "print", cs "function", ⟨0, 0⟩, cs "Void",
   cs "Built-in function: print(value: Any) -> Void"⟩

/-- SemanticAnalyzer() initial state. -/
def saInit : Sem := ⟨[[printSym]], [printDef], [], [], none⟩

/-- SemanticAnalyzer.find_definition: first recorded definition of the
name; the location argument is accepted and ignored, as in the source. -/
def findDefinitionS (st : Sem) (name : List Char) (_loc : Location) :
    Option Definition :=
  (st.defs.filter (fun d => d.name == name)).head?

/-- SemanticAnalyzer.find_all_references: the references whose name
matches and whose bound definition sits exactly at the given location. -/
def findAllReferencesS (st : Sem) (name : List Char) (defLoc : Location) :
    List Reference :=
  st.refs.filter (fun r =>
    r.name == name && r.definition.location.line == defLoc.line &&
      r.definition.location.column == defLoc.column)

/-- The formatted function signature of _format_function_signature. -/
def formatSignature (name : List Char) (params : List Param) (retType : List Char) :
    List Char :=
  cs "function " ++ name ++ cs "(" ++
    List.intercalate (cs ", ") (params.map (fun p => p.name ++ cs ": " ++ p.annot)) ++
    cs ") -> " ++ retType

/-- SemanticAnalyzer expression visitor. An identifier usage resolves the
name, then binds a reference to the first recorded definition of the name
when one exists; unresolved names append a formatted error string. -/
def saExprF : Nat → Sem → Expr → Sem
  | 0, st, _ => st
  | n + 1, st, e =>
    match e with
    | .ident name line col =>
      match resolveS st.scopes name with
      | none =>
        { st with errors := st.errors ++
            [cs "Undefined identifier '" ++ name ++ cs "' at " ++
              natStr line ++ cs ":" ++ natStr col] }
      | some _ =>
        match findDefinitionS st name ⟨line, col⟩ with
        | some d => { st with refs := st.refs ++ [⟨name, ⟨line, col⟩, d⟩] }
        | none => st
    | .intLit _ _ _ | .floatLit _ _ _ | .strLit _ _ _ | .boolLit _ _ _ => st
    | .binary l _ r _ _ => saExprF n (saExprF n st l) r
    | .unary _ r _ _ => saExprF n st r
    | .call callee args _ _ =>
      args.foldl (fun a q => saExprF n a q) (saExprF n st callee)
    | .assign target value _ _ => saExprF n (saExprF n st target) value
    | .arrayLit elems _ _ => elems.foldl (fun a q => saExprF n a q) st
    | .indexE arr idx _ _ => saExprF n (saExprF n st arr) idx

/-- SemanticAnalyzer statement visitor. Declarations record a Definition
first; variable declarations define the symbol before visiting their
initializer. Scope discipline is the save/install/restore of the source. -/
def saStmtF : Nat → Sem → Stmt → Sem
  | 0, st, _ => st
  | n + 1, st, s =>
    match s with
    | .varDecl name annot init line col =>
      let vt := annot.getD (cs "inferred")
      let d : Definition := ⟨name, cs "variable", ⟨line, col⟩, vt, []⟩
      let st1 := { st with defs := st.defs ++ [d] }
      let st2 :=
        if containsLocal st1.scopes name then
          { st1 with errors := st1.errors ++
              [cs "Variable '" ++ name ++ cs "' is already defined at " ++
                natStr line ++ cs ":" ++ natStr col] }
        else { st1 with scopes := defineS st1.scopes (.varS name vt true) }
      match init with
      | none => st2
      | some e => saExprF n st2 e
    | .funDecl name params retType body line col =>
      let d : Definition :=
        ⟨name, cs "function", ⟨line, col⟩, retType, formatSignature name params retType⟩
      let st1 := { st with defs := st.defs ++ [d] }
      let ps := params.map (fun p => Symbol.varS p.name p.annot true)
      let fsym := Symbol.funcS name retType ps false
      let st2 :=
        if containsLocal st1.scopes name then
          { st1 with errors := st1.errors ++
              [cs "Function '" ++ name ++ cs "' is already defined at " ++
                natStr line ++ cs ":" ++ natStr col] }
        else { st1 with scopes := defineS st1.scopes fsym }
      let saved := st2.scopes
      let savedFn := st2.currentFunction
      let st3 := { st2 with scopes := [] :: st2.scopes, currentFunction := some fsym }
      let st4 := params.foldl
        (fun a p =>
          let pd : Definition :=
            ⟨p.name, cs "parameter", ⟨p.nameLine, p.nameCol⟩, p.annot, []⟩
          { a with defs := a.defs ++ [pd],
                   scopes := defineS a.scopes (.varS p.name p.annot true) }) st3
      let st5 := body.foldl (fun a q => saStmtF n a q) st4
      { st5 with scopes := saved, currentFunction := savedFn }
    | .ret value _ _ =>
      match value with
      | none => st
      | some v => saExprF n st v
    | .block stmts _ _ =>
      let saved := st.scopes
      let st1 := { st with scopes := [] :: st.scopes }
      let st2 := stmts.foldl (fun a q => saStmtF n a q) st1
      { st2 with scopes := saved }
    | .ifS cond thenB elseB _ _ =>
      let st1 := saExprF n st cond
      let st2 := saStmtF n st1 thenB
      match elseB with
      | none => st2
      | some e => saStmtF n st2 e
    | .whileS cond body _ _ =>
      saStmtF n (saExprF n st cond) body
    | .forS fInit cond incr body _ _ =>
      let saved := st.scopes
      let st1 := { st with scopes := [] :: st.scopes }
      let st2 :=
        match fInit with
        | none => st1
        | some q => saStmtF n st1 q
      let st3 :=
        match cond with
        | none => st2
        | some c => saExprF n st2 c
      let st4 :=
        match incr with
        | none => st3
        | some i => saExprF n st3 i
      let st5 := saStmtF n st4 body
      { st5 with scopes := saved }
    | .exprStmt e _ _ => saExprF n st e

/-- SemanticAnalyzer.visit_program. -/
def saStmtsF (n : Nat) (st : Sem) (stmts : List Stmt) : Sem :=
  stmts.foldl (fun a q => saStmtF n a q) st

/-- SemanticAnalyzer().analyze(program): the final analyzer state, which
carries the SemanticInfo fields (defs, refs, errors). -/
def saAnalyze (prog : List Stmt) : Sem :=
  saStmtsF runFuel saInit prog

/-- Does an expression contain an identifier of the given name as a
subexpression (used to state the self-reference claim)? -/
def containsIdentF : Nat → Expr → List Char → Bool
  | 0, _, _ => false
  | n + 1, e, name =>
    match e with
    | .ident m _ _ => m == name
    | .intLit _ _ _ | .floatLit _ _ _ | .strLit _ _ _ | .boolLit _ _ _ => false
    | .binary l _ r _ _ => containsIdentF n l name || containsIdentF n r name
    | .unary _ r _ _ => containsIdentF n r name
    | .call c args _ _ =>
      containsIdentF n c name || args.any (fun a => containsIdentF n a name)
    | .assign t v _ _ => containsIdentF n t name || containsIdentF n v name
    | .arrayLit es _ _ => es.any (fun a => containsIdentF n a name)
    | .indexE a i _ _ => containsIdentF n a name || containsIdentF n i name

/-- The example programs the concrete theorems below evaluate. -/
def progC3 : List Stmt :=
  [Stmt.exprStmt (Expr.assign (Expr.ident (cs "print") 1 1)
     (Expr.call (Expr.ident (cs "print") 1 9) [Expr.intLit 1 1 15] 1 9) 1 1) 1 1]

/-- Initializer of the C9 counterexample: print(1, x). -/
def initC9 : Expr :=
  Expr.call (Expr.ident (cs "print") 1 9)
    [Expr.intLit 1 1 15, Expr.ident (cs "x") 1 18] 1 9

/-- Program of the C9 counterexample: var x = print(1, x); -/
def progC9 : List Stmt := [Stmt.varDecl (cs "x") none (some initC9) 1 1]

/-- Program of the C10 counterexample: var x; var x; (both declarations
have neither annotation nor initializer). -/
def progC10 : List Stmt :=
  [Stmt.varDecl (cs "x") none none 1 1, Stmt.varDecl (cs "x") none none 2 1]

/-- Program for the C8 witness: var x = 1; x; -/
def progC8 : List Stmt :=
  [Stmt.varDecl (cs "x") none (some (Expr.intLit 1 1 9)) 1 1,
   Stmt.exprStmt (Expr.ident (cs "x") 2 1) 2 1]

/-- State carried out of a parsing step, whether it returned or raised
(Python mutates the one parser object in both cases). -/
def outPS {A : Type} : Except (PError × PState) (A × PState) → PState
  | .ok (_, st) => st
  | .error (_, st) => st

/-- The stopping condition of Parser.synchronize, as the spec states it:
past the end, or the previous token was a semicolon, or the current token
starts a statement. -/
def SyncPost (st : PState) : Prop :=
  isAtEnd st ∨ (prevT st).type = .SEMICOLON ∨ (peekT st).type ∈ startTypes

instance (st : PState) : Decidable (SyncPost st) := by
  unfold SyncPost; infer_instance

/-- The token kinds whose value field is not literal source text: the EOF
sentinel (empty value), strings (quotes stripped, escapes decoded), error
tokens from unterminated strings, and floats normalized from a trailing
dot. -/
def exKinds : List TokenType := [.EOF, .STRING, .ERROR, .FLOAT]

theorem takeIdent_split (l : List Char) :
    (takeIdent l).1 ++ (takeIdent l).2 = l := by
  induction l with
  | nil => simp [takeIdent]
  | cons c r ih =>
    by_cases h : (isAlnumChar c || c == '_') = true
    · simp [takeIdent, h, ih]
    · simp [takeIdent, h]

theorem takeNum_split (l : List Char) (f : Bool) :
    (takeNum l f).consumed ++ (takeNum l f).rem = l := by
  induction l generalizing f with
  | nil => simp [takeNum]
  | cons c r ih =>
    by_cases hd : isDigitChar c = true
    · simp [takeNum, hd, ih]
    · by_cases hp : (c == '.') = true
      · by_cases hf : f
        · simp [takeNum, hd, hp, hf]
        · simp [takeNum, hd, hp, hf, ih]
      · simp [takeNum, hd, hp]

theorem takeNum_true_float (l : List Char) : (takeNum l true).isFloat = true := by
  induction l with
  | nil => simp [takeNum]
  | cons a b ihb =>
    by_cases ha : isDigitChar a = true
    · simp [takeNum, ha, ihb]
    · by_cases hb : (a == '.') = true
      · simp [takeNum, ha, hb]
      · simp [takeNum, ha, hb]

theorem takeNum_digits (l : List Char) (f : Bool)
    (h : (takeNum l f).isFloat = false) :
    ∀ c ∈ (takeNum l f).consumed, isDigitChar c = true := by
  induction l generalizing f with
  | nil => simp [takeNum]
  | cons c r ih =>
    by_cases hd : isDigitChar c = true
    · simp only [takeNum, hd, if_pos] at h ⊢
      intro x hx
      rcases List.mem_cons.mp hx with rfl | hx
      · exact hd
      · exact ih f h x hx
    · by_cases hp : (c == '.') = true
      · by_cases hf : f
        · simp [takeNum, hd, hp, hf] at h ⊢
        · exfalso
          simp [takeNum, hd, hp, hf, takeNum_true_float] at h
      · simp [takeNum, hd, hp]

theorem strScan_split_aux (q : Char) :
    ∀ (n : Nat) (l : List Char), l.length ≤ n →
      (strScan q l).consumed ++ (strScan q l).rem = l := by
  intro n
  induction n with
  | zero =>
    intro l hl
    match l with
    | [] => simp [strScan]
    | c :: r => simp at hl
  | succ n ih =>
    intro l hl
    match l with
    | [] => simp [strScan]
    | c :: r =>
      by_cases hq : c = q
      · subst hq
        rw [strScan.eq_def]
        simp
      · by_cases hb : c = bsl
        · subst hb
          match r with
          | [] =>
            rw [strScan.eq_def]
            simp [hq]
          | e :: r' =>
            have hr := ih r' (by simp at hl; omega)
            rw [strScan.eq_def]
            simp [hq, hr]
        · have hr := ih r (by simp at hl; omega)
          rw [strScan.eq_def]
          simp [hq, hb, hr]

theorem strScan_split (q : Char) (l : List Char) :
    (strScan q l).consumed ++ (strScan q l).rem = l :=
  strScan_split_aux q l.length l (le_refl _)

theorem blockRest_split (l : List Char) :
    (blockRest l).1 ++ (blockRest l).2 = l := by
  induction l with
  | nil => simp [blockRest]
  | cons c r ih =>
    by_cases h : c = '*' ∧ r.head? = some '/'
    · obtain ⟨hc, hd⟩ := h
      subst hc
      cases r with
      | nil => simp at hd
      | cons d r2 =>
        simp at hd
        subst hd
        simp [blockRest]
    · simp [blockRest, h, ih]

theorem head?_cons_eq {α : Type} {l : List α} {a : α} (h : l.head? = some a) :
    l = a :: l.tail := by
  cases l <;> simp_all

theorem takeIdent_cons_pos {c : Char} {l : List Char}
    (h : (isAlnumChar c || c == '_') = true) :
    takeIdent (c :: l) = ((c :: (takeIdent l).1 : List Char), (takeIdent l).2) := by
  simp [takeIdent, h]

theorem takeNum_cons_digit {c : Char} {l : List Char} {f : Bool}
    (h : isDigitChar c = true) :
    takeNum (c :: l) f =
      ⟨c :: (takeNum l f).consumed, (takeNum l f).rem, (takeNum l f).isFloat⟩ := by
  simp [takeNum, h]

theorem alpha_alnum {c : Char} (h : isAlphaChar c = true) : isAlnumChar c = true := by
  simp [isAlphaChar, Char.isAlpha] at h
  rcases h with h | h <;> simp [isAlnumChar, Char.isAlphanum, Char.isAlpha, h]

theorem getLast?_mem' {α : Type} {l : List α} {a : α} (h : l.getLast? = some a) :
    a ∈ l := by
  induction l with
  | nil => simp at h
  | cons x r ih =>
    cases r with
    | nil => simp at h; simp [h]
    | cons y t =>
      rw [List.getLast?_cons_cons] at h
      exact List.mem_cons_of_mem x (ih h)

theorem keywordType_ne_eof (s : List Char) :
    (keywordType s).getD .IDENTIFIER ≠ .EOF := by
  unfold keywordType
  cases hf : keywords.find? (fun kv => kv.1 == s) with
  | none => simp
  | some kv =>
    have hm := List.mem_of_find?_eq_some hf
    have hall : ∀ kv ∈ keywords, kv.2 ≠ TokenType.EOF := by decide
    have : kv.2 ≠ .EOF := hall kv hm
    simpa using this

set_option maxHeartbeats 1000000 in
theorem scan_master (c : Char) (l : List Char) (line col : Nat) :
    (scanToken c l line col).consumed ++ (scanToken c l line col).rem = c :: l ∧
    (scanToken c l line col).consumed ≠ [] ∧
    (∀ t, (scanToken c l line col).tok? = some t →
      t.line = line ∧ t.column = col ∧ t.type ≠ .EOF ∧
        (t.type ∉ exKinds → t.value = (scanToken c l line col).consumed)) := by
  rw [scanToken.eq_def]
  by_cases hws : isSpaceChar c = true
  · rw [if_pos hws]
    refine ⟨by simp [List.takeWhile_append_dropWhile], ?_, by simp⟩
    simp [List.takeWhile_cons, hws]
  rw [if_neg hws]
  by_cases hlc : c = '/' ∧ l.head? = some '/'
  · rw [if_pos hlc]
    obtain ⟨rfl, -⟩ := hlc
    refine ⟨by simp [List.takeWhile_append_dropWhile], ?_, by simp⟩
    simp [List.takeWhile_cons]
  rw [if_neg hlc]
  by_cases hbc : c = '/' ∧ l.head? = some '*'
  · rw [if_pos hbc]
    obtain ⟨rfl, hh⟩ := hbc
    rw [head?_cons_eq hh]
    exact ⟨by simp [blockRest_split], by simp, by simp⟩
  rw [if_neg hbc]
  by_cases hid : isAlphaChar c = true ∨ c = '_'
  · rw [if_pos hid]
    have hb : (isAlnumChar c || c == '_') = true := by
      rcases hid with h | h
      · simp [alpha_alnum h]
      · simp [h]
    refine ⟨takeIdent_split _, ?_, ?_⟩
    · rw [takeIdent_cons_pos hb]
      simp
    · intro t ht
      simp only [Option.some.injEq] at ht
      subst ht
      exact ⟨rfl, rfl, keywordType_ne_eof _, fun _ => rfl⟩
  rw [if_neg hid]
  by_cases hnum : isDigitChar c = true
  · rw [if_pos hnum]
    refine ⟨takeNum_split _ _, ?_, ?_⟩
    · rw [takeNum_cons_digit hnum]
      simp
    · intro t ht
      simp only [Option.some.injEq] at ht
      subst ht
      refine ⟨rfl, rfl, by split <;> simp, ?_⟩
      intro hex
      by_cases hf : (takeNum (c :: l) false).isFloat = true
      · exfalso
        simp [hf, exKinds] at hex
      · have hnd : ((takeNum (c :: l) false).consumed.getLast? = some '.') = False := by
          simp only [eq_iff_iff, iff_false]
          intro hlast
          have := takeNum_digits (c :: l) false (by simpa using hf) '.' (getLast?_mem' hlast)
          simp [isDigitChar] at this
        simp [hf, hnd]
  rw [if_neg hnum]
  by_cases hstr : c = dq ∨ c = sq
  · rw [if_pos hstr]
    refine ⟨by rw [List.cons_append, strScan_split], by simp, ?_⟩
    intro t ht
    simp only [Option.some.injEq] at ht
    subst ht
    refine ⟨rfl, rfl, by split <;> simp, ?_⟩
    intro hex
    exfalso
    revert hex
    split <;> simp [exKinds]
  rw [if_neg hstr]
  by_cases hplus : c = '+'
  · rw [if_pos hplus]
    simp [exKinds]
  rw [if_neg hplus]
  by_cases hminus : c = '-'
  · rw [if_pos hminus]
    simp [exKinds]
  rw [if_neg hminus]
  by_cases hmul : c = '*'
  · rw [if_pos hmul]
    simp [exKinds]
  rw [if_neg hmul]
  by_cases hdiv : c = '/'
  · rw [if_pos hdiv]
    simp [exKinds]
  rw [if_neg hdiv]
  by_cases hmod : c = '%'
  · rw [if_pos hmod]
    simp [exKinds]
  rw [if_neg hmod]
  by_cases heq : c = '='
  · rw [if_pos heq]
    by_cases heq2 : l.head? = some '='
    · rw [if_pos heq2]
      subst heq
      rw [head?_cons_eq heq2]
      simp [exKinds]
    · rw [if_neg heq2]
      simp [exKinds]
  rw [if_neg heq]
  by_cases hbang : c = '!'
  · rw [if_pos hbang]
    by_cases hbang2 : l.head? = some '='
    · rw [if_pos hbang2]
      subst hbang
      rw [head?_cons_eq hbang2]
      simp [exKinds]
    · rw [if_neg hbang2]
      simp [exKinds]
  rw [if_neg hbang]
  by_cases hlt : c = '<'
  · rw [if_pos hlt]
    by_cases hlt2 : l.head? = some '='
    · rw [if_pos hlt2]
      subst hlt
      rw [head?_cons_eq hlt2]
      simp [exKinds]
    · rw [if_neg hlt2]
      simp [exKinds]
  rw [if_neg hlt]
  by_cases hgt : c = '>'
  · rw [if_pos hgt]
    by_cases hgt2 : l.head? = some '='
    · rw [if_pos hgt2]
      subst hgt
      rw [head?_cons_eq hgt2]
      simp [exKinds]
    · rw [if_neg hgt2]
      simp [exKinds]
  rw [if_neg hgt]
  by_cases hamp : c = '&' ∧ l.head? = some '&'
  · rw [if_pos hamp]
    obtain ⟨rfl, hh⟩ := hamp
    rw [head?_cons_eq hh]
    simp [exKinds]
  rw [if_neg hamp]
  by_cases hpipe : c = '|' ∧ l.head? = some '|'
  · rw [if_pos hpipe]
    obtain ⟨rfl, hh⟩ := hpipe
    rw [head?_cons_eq hh]
    simp [exKinds]
  rw [if_neg hpipe]
  by_cases hlp : c = '('
  · rw [if_pos hlp]
    simp [exKinds]
  rw [if_neg hlp]
  by_cases hrp : c = ')'
  · rw [if_pos hrp]
    simp [exKinds]
  rw [if_neg hrp]
  by_cases hlb : c = '{'
  · rw [if_pos hlb]
    simp [exKinds]
  rw [if_neg hlb]
  by_cases hrb : c = '}'
  · rw [if_pos hrb]
    simp [exKinds]
  rw [if_neg hrb]
  by_cases hlbk : c = '['
  · rw [if_pos hlbk]
    simp [exKinds]
  rw [if_neg hlbk]
  by_cases hrbk : c = ']'
  · rw [if_pos hrbk]
    simp [exKinds]
  rw [if_neg hrbk]
  by_cases hcomma : c = ','
  · rw [if_pos hcomma]
    simp [exKinds]
  rw [if_neg hcomma]
  by_cases hdot : c = '.'
  · rw [if_pos hdot]
    simp [exKinds]
  rw [if_neg hdot]
  by_cases hsemi : c = ';'
  · rw [if_pos hsemi]
    simp [exKinds]
  rw [if_neg hsemi]
  by_cases hcolon : c = ':'
  · rw [if_pos hcolon]
    simp [exKinds]
  rw [if_neg hcolon]
  simp [exKinds]

theorem scan_unrecognized (c : Char) (l : List Char) (line col : Nat)
    (h : ¬ MatchesRule c l) :
    scanToken c l line col = ⟨some ⟨.ERROR, [c], line, col⟩, [c], l⟩ := by
  simp only [MatchesRule, not_or] at h
  obtain ⟨h1, h2, h3, h4, h5, h6, h7, h8, h9, h10, h11, h12, h13, h14, h15,
    h16, h17, h18, h19, h20, h21, h22, h23, h24, h25, h26⟩ := h
  rw [scanToken.eq_def]
  rw [if_neg h1, if_neg (fun hc => h2 ⟨hc.1, Or.inl hc.2⟩),
    if_neg (fun hc => h2 ⟨hc.1, Or.inr hc.2⟩), if_neg (not_or.mpr h3), if_neg h4,
    if_neg (not_or.mpr h5),
    if_neg h6, if_neg h7, if_neg h8, if_neg h9, if_neg h10, if_neg h11,
    if_neg h12, if_neg h13, if_neg h14, if_neg h15, if_neg h16, if_neg h17,
    if_neg h18, if_neg h19, if_neg h20, if_neg h21, if_neg h22, if_neg h23,
    if_neg h24, if_neg h25, if_neg h26]

theorem advLC_append (a b : Nat) (u v : List Char) :
    advLC a b (u ++ v) = advLC (advLC a b u).1 (advLC a b u).2 v := by
  simp [advLC, List.foldl_append]

theorem tokenizeAux_eof (fuel : Nat) :
    ∀ (rest : List Char) (line col : Nat),
      ∃ pre l2 c2, tokenizeAux fuel rest line col = pre ++ [⟨.EOF, [], l2, c2⟩] ∧
        ∀ t ∈ pre, t.type ≠ .EOF := by
  induction fuel with
  | zero =>
    intro rest line col
    exact ⟨[], line, col, rfl, by simp⟩
  | succ n ih =>
    intro rest line col
    cases rest with
    | nil => exact ⟨[], line, col, rfl, by simp⟩
    | cons c l =>
      obtain ⟨pre, l2, c2, he, hp⟩ :=
        ih (scanToken c l line col).rem (advLC line col (scanToken c l line col).consumed).1
          (advLC line col (scanToken c l line col).consumed).2
      rw [tokenizeAux, he]
      cases htok : (scanToken c l line col).tok? with
      | none =>
        refine ⟨pre, l2, c2, by simp, hp⟩
      | some t =>
        have hne := ((scan_master c l line col).2.2 t htok).2.2.1
        refine ⟨t :: pre, l2, c2, by simp, ?_⟩
        intro u hu
        rcases List.mem_cons.mp hu with rfl | hu
        · exact hne
        · exact hp u hu

theorem tok_occurs_aux (fuel : Nat) :
    ∀ (rest : List Char) (line col : Nat) (pre src : List Char),
      src = pre ++ rest → advLC 1 1 pre = (line, col) →
      ∀ t ∈ tokenizeAux fuel rest line col, t.type ∉ exKinds →
        ∃ p su, src = p ++ t.value ++ su ∧ advLC 1 1 p = (t.line, t.column) := by
  induction fuel with
  | zero =>
    intro rest line col pre src hsrc hpos t ht hex
    simp only [tokenizeAux, List.mem_singleton] at ht
    subst ht
    simp [exKinds] at hex
  | succ n ih =>
    intro rest line col pre src hsrc hpos t ht hex
    cases rest with
    | nil =>
      simp only [tokenizeAux, List.mem_singleton] at ht
      subst ht
      simp [exKinds] at hex
    | cons c l =>
      rw [tokenizeAux] at ht
      obtain ⟨hsplit, -, hgood⟩ := scan_master c l line col
      rcases List.mem_append.mp ht with hhd | htl
      · cases htok : (scanToken c l line col).tok? with
        | none => simp [htok] at hhd
        | some u =>
          rw [htok] at hhd
          simp only [List.mem_singleton] at hhd
          subst hhd
          obtain ⟨hl, hc, -, hval⟩ := hgood t htok
          refine ⟨pre, (scanToken c l line col).rem, ?_, ?_⟩
          · rw [hsrc, hval hex, ← hsplit]
            simp
          · rw [hpos, hl, hc]
      · exact ih (scanToken c l line col).rem _ _ (pre ++ (scanToken c l line col).consumed)
          src (by rw [hsrc, List.append_assoc, hsplit])
          (by rw [advLC_append, hpos]) t htl hex

theorem advanceT_tokens (st : PState) : (advanceT st).tokens = st.tokens := by
  unfold advanceT
  split <;> rfl

theorem advanceT_mono (st : PState) : st.current ≤ (advanceT st).current := by
  unfold advanceT
  split <;> simp

theorem advanceT_progress (st : PState) (h : ¬ isAtEnd st) :
    st.current + 1 ≤ (advanceT st).current := by
  unfold advanceT
  rw [if_neg h]

theorem not_atEnd_lt (st : PState) (h : ¬ isAtEnd st) :
    st.current < st.tokens.length := by
  by_contra hge
  apply h
  unfold isAtEnd peekT
  rw [List.getD_eq_default]
  omega

theorem consumeT_state (st : PState) (t : TokenType) (msg : List Char) :
    (outPS (consumeT st t msg)).tokens = st.tokens ∧
      st.current ≤ (outPS (consumeT st t msg)).current := by
  unfold consumeT
  split
  · exact ⟨advanceT_tokens st, advanceT_mono st⟩
  · exact ⟨rfl, le_refl _⟩

theorem primaryF_state (n : Nat) :
    ∀ st : PState, (outPS (primaryF n st)).tokens = st.tokens ∧
      st.current ≤ (outPS (primaryF n st)).current := by
  induction n with
  | zero => intro st; exact ⟨rfl, le_refl _⟩
  | succ n ih =>
    intro st
    rw [primaryF]
    by_cases h1 : (peekT st).type = .INTEGER
    · rw [if_pos h1]; exact ⟨advanceT_tokens st, advanceT_mono st⟩
    rw [if_neg h1]
    by_cases h2 : (peekT st).type = .FLOAT
    · rw [if_pos h2]; exact ⟨advanceT_tokens st, advanceT_mono st⟩
    rw [if_neg h2]
    by_cases h3 : (peekT st).type = .STRING
    · rw [if_pos h3]; exact ⟨advanceT_tokens st, advanceT_mono st⟩
    rw [if_neg h3]
    by_cases h4 : (peekT st).type = .IDENTIFIER
    · rw [if_pos h4]; exact ⟨advanceT_tokens st, advanceT_mono st⟩
    rw [if_neg h4]
    by_cases h5 : (peekT st).type = .LPAREN
    · rw [if_pos h5]
      have hin := ih (advanceT st)
      cases hp : primaryF n (advanceT st) with
      | error e =>
        rw [hp] at hin
        simp only [expressionF, hp]
        exact ⟨hin.1.trans (advanceT_tokens st), (advanceT_mono st).trans hin.2⟩
      | ok v =>
        obtain ⟨e, st2⟩ := v
        rw [hp] at hin
        simp only [expressionF, hp]
        have hc := consumeT_state st2 .RPAREN (cs "Expected ')' after expression.")
        cases hcon : consumeT st2 .RPAREN (cs "Expected ')' after expression.") with
        | error er =>
          obtain ⟨er2, st3⟩ := er
          rw [hcon] at hc
          simp only [hcon]
          exact ⟨(hc.1.trans hin.1).trans (advanceT_tokens st),
            ((advanceT_mono st).trans hin.2).trans hc.2⟩
        | ok v2 =>
          obtain ⟨tk, st3⟩ := v2
          rw [hcon] at hc
          simp only [hcon]
          exact ⟨(hc.1.trans hin.1).trans (advanceT_tokens st),
            ((advanceT_mono st).trans hin.2).trans hc.2⟩
    rw [if_neg h5]
    exact ⟨advanceT_tokens st, advanceT_mono st⟩

theorem primaryF_progress (n : Nat) (st : PState) (hn : 0 < n) (h : ¬ isAtEnd st) :
    st.current + 1 ≤ (outPS (primaryF n st)).current := by
  cases n with
  | zero => omega
  | succ n =>
    rw [primaryF]
    by_cases h1 : (peekT st).type = .INTEGER
    · rw [if_pos h1]; exact advanceT_progress st h
    rw [if_neg h1]
    by_cases h2 : (peekT st).type = .FLOAT
    · rw [if_pos h2]; exact advanceT_progress st h
    rw [if_neg h2]
    by_cases h3 : (peekT st).type = .STRING
    · rw [if_pos h3]; exact advanceT_progress st h
    rw [if_neg h3]
    by_cases h4 : (peekT st).type = .IDENTIFIER
    · rw [if_pos h4]; exact advanceT_progress st h
    rw [if_neg h4]
    by_cases h5 : (peekT st).type = .LPAREN
    · rw [if_pos h5]
      have hadv := advanceT_progress st h
      have hin := (primaryF_state n (advanceT st)).2
      cases hp : primaryF n (advanceT st) with
      | error e =>
        rw [hp] at hin
        simp only [expressionF, hp]
        omega
      | ok v =>
        obtain ⟨e, st2⟩ := v
        rw [hp] at hin
        simp only [expressionF, hp]
        have hc := (consumeT_state st2 .RPAREN (cs "Expected ')' after expression.")).2
        cases hcon : consumeT st2 .RPAREN (cs "Expected ')' after expression.") with
        | error er =>
          obtain ⟨er2, st3⟩ := er
          rw [hcon] at hc
          simp only [hcon]
          simp only [outPS] at hin hc ⊢
          omega
        | ok v2 =>
          obtain ⟨tk, st3⟩ := v2
          rw [hcon] at hc
          simp only [hcon]
          simp only [outPS] at hin hc ⊢
          omega
    rw [if_neg h5]
    exact advanceT_progress st h

theorem declP_state (st : PState) :
    (outPS (declP st)).tokens = st.tokens ∧
      st.current ≤ (outPS (declP st)).current ∧
      (¬ isAtEnd st → st.current + 1 ≤ (outPS (declP st)).current) := by
  unfold declP statementF exprStmtF
  have hp := primaryF_state (st.tokens.length + 1) st
  have hpp := fun h => primaryF_progress (st.tokens.length + 1) st (by omega) h
  cases hprim : expressionF (st.tokens.length + 1) st with
  | error e =>
    unfold expressionF at hprim
    rw [hprim] at hp hpp
    exact ⟨hp.1, hp.2, hpp⟩
  | ok v =>
    obtain ⟨e, st1⟩ := v
    unfold expressionF at hprim
    rw [hprim] at hp hpp
    have hc := consumeT_state st1 .SEMICOLON (cs "Expected ';' after expression.")
    simp only [outPS] at hp hpp
    split
    next er heq => simp at heq
    next tk st2 heq =>
      simp only [Except.ok.injEq, Prod.mk.injEq] at heq
      obtain ⟨rfl, rfl⟩ := heq
      split
      next er2 heq2 =>
        obtain ⟨er3, st3⟩ := er2
        rw [heq2] at hc
        simp only [outPS] at hc ⊢
        exact ⟨hc.1.trans hp.1, hp.2.trans hc.2, fun h => by have := hpp h; omega⟩
      next tk2 st3 heq2 =>
        rw [heq2] at hc
        simp only [outPS] at hc ⊢
        exact ⟨hc.1.trans hp.1, hp.2.trans hc.2, fun h => by have := hpp h; omega⟩

theorem syncLoopF_state (n : Nat) :
    ∀ st : PState, (syncLoopF n st).tokens = st.tokens ∧
      st.current ≤ (syncLoopF n st).current := by
  induction n with
  | zero => intro st; exact ⟨rfl, le_refl _⟩
  | succ n ih =>
    intro st
    rw [syncLoopF]
    by_cases h1 : isAtEnd st
    · rw [if_pos h1]; exact ⟨rfl, le_refl _⟩
    rw [if_neg h1]
    by_cases h2 : (prevT st).type = .SEMICOLON
    · rw [if_pos h2]; exact ⟨rfl, le_refl _⟩
    rw [if_neg h2]
    by_cases h3 : (peekT st).type ∈ startTypes
    · rw [if_pos h3]; exact ⟨rfl, le_refl _⟩
    rw [if_neg h3]
    have := ih (advanceT st)
    exact ⟨this.1.trans (advanceT_tokens st), (advanceT_mono st).trans this.2⟩

theorem syncLoopF_post (n : Nat) :
    ∀ st : PState, st.tokens.length - st.current < n →
      SyncPost (syncLoopF n st) := by
  induction n with
  | zero => intro st h; omega
  | succ n ih =>
    intro st h
    rw [syncLoopF]
    by_cases h1 : isAtEnd st
    · rw [if_pos h1]; exact Or.inl h1
    rw [if_neg h1]
    by_cases h2 : (prevT st).type = .SEMICOLON
    · rw [if_pos h2]; exact Or.inr (Or.inl h2)
    rw [if_neg h2]
    by_cases h3 : (peekT st).type ∈ startTypes
    · rw [if_pos h3]; exact Or.inr (Or.inr h3)
    rw [if_neg h3]
    apply ih
    have hlt := not_atEnd_lt st h1
    have := advanceT_progress st h1
    rw [advanceT_tokens st]
    omega

theorem synchronizeP_post (st : PState) : SyncPost (synchronizeP st) := by
  unfold synchronizeP
  apply syncLoopF_post
  rw [advanceT_tokens st]
  have := advanceT_mono st
  omega

theorem synchronizeP_state (st : PState) :
    (synchronizeP st).tokens = st.tokens ∧ st.current ≤ (synchronizeP st).current := by
  unfold synchronizeP
  have hs := syncLoopF_state (st.tokens.length + 1) (advanceT st)
  exact ⟨hs.1.trans (advanceT_tokens st), (advanceT_mono st).trans hs.2⟩

theorem parseLoopF_stable (n : Nat) :
    ∀ st : PState, st.tokens.length - st.current < n →
      parseLoopF n st = parseLoopF (n + 1) st := by
  induction n with
  | zero => intro st h; omega
  | succ n ih =>
    intro st h
    rw [parseLoopF, parseLoopF]
    by_cases h1 : isAtEnd st
    · rw [if_pos h1, if_pos h1]
    rw [if_neg h1, if_neg h1]
    have hd := declP_state st
    have hlt := not_atEnd_lt st h1
    cases hdec : declP st with
    | ok v =>
      obtain ⟨s, st'⟩ := v
      rw [hdec] at hd
      simp only [outPS] at hd
      show (s :: (parseLoopF n st').1, (parseLoopF n st').2) =
        (s :: (parseLoopF (n + 1) st').1, (parseLoopF (n + 1) st').2)
      rw [ih st' (by have h2 := hd.2.2 h1; rw [hd.1]; omega)]
    | error e =>
      obtain ⟨er, st'⟩ := e
      rw [hdec] at hd
      simp only [outPS] at hd
      have hs := synchronizeP_state st'
      show ((parseLoopF n (synchronizeP st')).1, er :: (parseLoopF n (synchronizeP st')).2) =
        ((parseLoopF (n + 1) (synchronizeP st')).1, er :: (parseLoopF (n + 1) (synchronizeP st')).2)
      rw [ih (synchronizeP st')
        (by have h2 := hd.2.2 h1; rw [hs.1, hd.1]; have h3 := hs.2; omega)]

theorem foldl_pres {α β γ : Type} (f : α → β → α) (m : α → γ)
    (h : ∀ a b, m (f a b) = m a) :
    ∀ (l : List β) (a : α), m (List.foldl f a l) = m a := by
  intro l
  induction l with
  | nil => intro a; rfl
  | cons b t ih => intro a; rw [List.foldl_cons, ih, h]

theorem pushErr_scopes (st : TC) (msg : List Char) (line col : Nat) :
    (pushErr st msg line col).scopes = st.scopes := rfl

set_option maxHeartbeats 1000000 in
theorem tcExprF_scopes (n : Nat) :
    ∀ (e : Expr) (st : TC), (tcExprF n st e).2.scopes = st.scopes := by
  induction n with
  | zero => intro e st; rfl
  | succ n ih =>
    intro e st
    cases e with
    | ident name line col =>
      simp only [tcExprF]
      cases resolveS st.scopes name <;> rfl
    | intLit v l c => rfl
    | floatLit v l c => rfl
    | strLit v l c => rfl
    | boolLit v l c => rfl
    | binary l op r line col =>
      simp only [tcExprF]
      split_ifs <;> simp [pushErr, ih l st, ih r (tcExprF n st l).2]
    | unary op r line col =>
      simp only [tcExprF]
      split_ifs <;> simp [pushErr, ih r st]
    | call callee args line col =>
      simp only [tcExprF]
      cases callee with
      | ident fn l2 c2 =>
        have hc := ih (.ident fn l2 c2) st
        cases hr : resolveS st.scopes fn with
        | none => simp [hc, hr, pushErr]
        | some sym =>
          cases sym with
          | varS a b m => simp [hc, hr, pushErr]
          | funcS a tn ps bi =>
            simp only [hc, hr]
            by_cases harity : args.length = ps.length
            · simp only [harity, ne_eq, not_true_eq_false, if_false, if_neg]
              refine (foldl_pres _ (fun (acc : TC × Nat) => acc.1.scopes) ?_
                (args.zip ps) ((tcExprF n st (.ident fn l2 c2)).2, 0)).trans hc
              intro a b
              simp only []
              split_ifs <;> simp [pushErr, ih b.1 a.1]
            · simp [harity, pushErr, hc]
      | intLit v l2 c2 => simp [pushErr, ih (.intLit v l2 c2) st]
      | floatLit v l2 c2 => simp [pushErr, ih (.floatLit v l2 c2) st]
      | strLit v l2 c2 => simp [pushErr, ih (.strLit v l2 c2) st]
      | boolLit v l2 c2 => simp [pushErr, ih (.boolLit v l2 c2) st]
      | binary a op b l2 c2 => simp [pushErr, ih (.binary a op b l2 c2) st]
      | unary op b l2 c2 => simp [pushErr, ih (.unary op b l2 c2) st]
      | call a b l2 c2 => simp [pushErr, ih (.call a b l2 c2) st]
      | assign a b l2 c2 => simp [pushErr, ih (.assign a b l2 c2) st]
      | arrayLit a l2 c2 => simp [pushErr, ih (.arrayLit a l2 c2) st]
      | indexE a b l2 c2 => simp [pushErr, ih (.indexE a b l2 c2) st]
    | assign target value line col =>
      simp only [tcExprF]
      cases target with
      | ident vn l2 c2 =>
        cases hr : resolveS st.scopes vn with
        | none => simp [hr, pushErr]
        | some sym =>
          simp only [hr]
          split_ifs <;> exact ih value _
      | intLit v l2 c2 => rfl
      | floatLit v l2 c2 => rfl
      | strLit v l2 c2 => rfl
      | boolLit v l2 c2 => rfl
      | binary a op b l2 c2 => rfl
      | unary op b l2 c2 => rfl
      | call a b l2 c2 => rfl
      | assign a b l2 c2 => rfl
      | arrayLit a l2 c2 => rfl
      | indexE a b l2 c2 => rfl
    | arrayLit elems line col =>
      simp only [tcExprF]
      cases elems with
      | nil => rfl
      | cons e0 rest =>
        have hfold := foldl_pres
          (fun (a : TC) (el : Expr) =>
            let pe := tcExprF n a el
            if pe.1 ≠ (tcExprF n st e0).1 then
              pushErr pe.2 (cs "Array elements must all have the same type. Expected '" ++
                (tcExprF n st e0).1 ++ cs "', got '" ++ pe.1 ++ cs "'") el.line el.column
            else pe.2)
          (fun a => a.scopes)
          (by
            intro a b
            simp only []
            split_ifs <;> simp [pushErr, ih b a])
          rest (tcExprF n st e0).2
        simpa [ih e0 st] using hfold
    | indexE arr idx line col =>
      simp only [tcExprF]
      split_ifs <;>
        simp [pushErr, ih arr st, ih idx (tcExprF n st arr).2]

theorem defineS_len (s : List (List Symbol)) (sym : Symbol) :
    (defineS s sym).length = s.length := by
  cases s <;> simp [defineS]

theorem defineS_drop (s : List (List Symbol)) (sym : Symbol) :
    (defineS s sym).drop 1 = s.drop 1 := by
  cases s <;> simp [defineS]

theorem defineS_tail (s : List (List Symbol)) (sym : Symbol) :
    (defineS s sym).tail = s.tail := by
  cases s <;> simp [defineS]

set_option maxHeartbeats 1000000 in
theorem tcStmtF_frame (n : Nat) :
    ∀ (s : Stmt) (st : TC),
      (tcStmtF n st s).scopes.length = st.scopes.length ∧
        (tcStmtF n st s).scopes.drop 1 = st.scopes.drop 1 := by
  induction n with
  | zero => intro s st; exact ⟨rfl, rfl⟩
  | succ n ih =>
    intro s st
    cases s with
    | varDecl name annot init line col =>
      simp only [tcStmtF]
      cases init with
      | none =>
        cases annot with
        | none =>
          split_ifs <;> simp [pushErr, defineS_len, defineS_drop, defineS_tail]
        | some a =>
          split_ifs <;>
            simp [pushErr, defineS_len, defineS_drop, defineS_tail] <;>
            split_ifs <;>
            simp [pushErr, defineS_len, defineS_drop, defineS_tail]
      | some e =>
        have he := tcExprF_scopes n e st
        cases annot with
        | none =>
          split_ifs <;> simp [pushErr, defineS_len, defineS_drop, defineS_tail, he]
        | some a =>
          split_ifs <;>
            simp [pushErr, defineS_len, defineS_drop, defineS_tail, he] <;>
            split_ifs <;>
            simp [pushErr, defineS_len, defineS_drop, defineS_tail, he]
    | funDecl name params retType body line col =>
      simp only [tcStmtF]
      split_ifs <;> simp [pushErr, defineS_len, defineS_drop, defineS_tail]
    | ret value line col =>
      simp only [tcStmtF]
      cases hcf : st.currentFunction with
      | none => simp [hcf, pushErr]
      | some f =>
        cases value with
        | none =>
          simp only [hcf]
          split_ifs <;> simp [pushErr]
        | some v =>
          have hv := tcExprF_scopes n v st
          simp only [hcf]
          split_ifs <;> simp [pushErr, hv]
    | block stmts line col =>
      simp [tcStmtF]
    | ifS cond thenB elseB line col =>
      simp only [tcStmtF]
      have hc := tcExprF_scopes n cond st
      cases elseB with
      | none =>
        split_ifs with h
        · have h2 := ih thenB (pushErr (tcExprF n st cond).2
            (cs "If condition must be a Boolean, got '" ++ (tcExprF n st cond).1 ++ cs "'")
            cond.line cond.column)
          constructor
          · rw [h2.1]; simp [pushErr, hc]
          · rw [h2.2]; simp [pushErr, hc]
        · have h2 := ih thenB (tcExprF n st cond).2
          constructor
          · rw [h2.1, hc]
          · rw [h2.2, hc]
      | some e =>
        split_ifs with h
        · have h2 := ih thenB (pushErr (tcExprF n st cond).2
            (cs "If condition must be a Boolean, got '" ++ (tcExprF n st cond).1 ++ cs "'")
            cond.line cond.column)
          have h3 := ih e (tcStmtF n (pushErr (tcExprF n st cond).2
            (cs "If condition must be a Boolean, got '" ++ (tcExprF n st cond).1 ++ cs "'")
            cond.line cond.column) thenB)
          constructor
          · rw [h3.1, h2.1]; simp [pushErr, hc]
          · rw [h3.2, h2.2]; simp [pushErr, hc]
        · have h2 := ih thenB (tcExprF n st cond).2
          have h3 := ih e (tcStmtF n (tcExprF n st cond).2 thenB)
          constructor
          · rw [h3.1, h2.1, hc]
          · rw [h3.2, h2.2, hc]
    | whileS cond body line col =>
      simp only [tcStmtF]
      have hc := tcExprF_scopes n cond st
      split_ifs with h
      · have h2 := ih body (pushErr (tcExprF n st cond).2
          (cs "While condition must be a Boolean, got '" ++ (tcExprF n st cond).1 ++ cs "'")
          cond.line cond.column)
        constructor
        · rw [h2.1]; simp [pushErr, hc]
        · rw [h2.2]; simp [pushErr, hc]
      · have h2 := ih body (tcExprF n st cond).2
        constructor
        · rw [h2.1, hc]
        · rw [h2.2, hc]
    | forS fInit cond incr body line col =>
      simp [tcStmtF]
    | exprStmt e line col =>
      simp only [tcStmtF]
      have := tcExprF_scopes n e st
      exact ⟨by rw [this], by rw [this]⟩

theorem saExprF_scopes (n : Nat) :
    ∀ (e : Expr) (st : Sem), (saExprF n st e).scopes = st.scopes := by
  induction n with
  | zero => intro e st; rfl
  | succ n ih =>
    intro e st
    cases e with
    | ident name line col =>
      simp only [saExprF]
      cases hr : resolveS st.scopes name with
      | none => simp [hr]
      | some sym =>
        cases hd : findDefinitionS st name ⟨line, col⟩ with
        | none => simp [hr, hd]
        | some d => simp [hr, hd]
    | intLit v l c => rfl
    | floatLit v l c => rfl
    | strLit v l c => rfl
    | boolLit v l c => rfl
    | binary l op r line col =>
      simp only [saExprF]
      exact (ih r _).trans (ih l st)
    | unary op r line col =>
      simp only [saExprF]
      exact ih r st
    | call callee args line col =>
      simp only [saExprF]
      refine (foldl_pres _ (fun (a : Sem) => a.scopes) ?_ args
        (saExprF n st callee)).trans (ih callee st)
      intro a b
      exact ih b a
    | assign target value line col =>
      simp only [saExprF]
      exact (ih value _).trans (ih target st)
    | arrayLit elems line col =>
      simp only [saExprF]
      refine foldl_pres _ (fun (a : Sem) => a.scopes) ?_ elems st
      intro a b
      exact ih b a
    | indexE arr idx line col =>
      simp only [saExprF]
      exact (ih idx _).trans (ih arr st)

set_option maxHeartbeats 1000000 in
theorem saStmtF_frame (n : Nat) :
    ∀ (s : Stmt) (st : Sem),
      (saStmtF n st s).scopes.length = st.scopes.length ∧
        (saStmtF n st s).scopes.drop 1 = st.scopes.drop 1 := by
  induction n with
  | zero => intro s st; exact ⟨rfl, rfl⟩
  | succ n ih =>
    intro s st
    cases s with
    | varDecl name annot init line col =>
      simp only [saStmtF]
      cases init with
      | none =>
        split_ifs <;> simp [defineS_len, defineS_drop, defineS_tail]
      | some e =>
        split_ifs <;>
          simp [saExprF_scopes n, defineS_len, defineS_drop, defineS_tail]
    | funDecl name params retType body line col =>
      simp only [saStmtF]
      split_ifs <;> simp [defineS_len, defineS_drop, defineS_tail]
    | ret value line col =>
      simp only [saStmtF]
      cases value with
      | none => simp
      | some v => simp [saExprF_scopes n]
    | block stmts line col =>
      simp [saStmtF]
    | ifS cond thenB elseB line col =>
      simp only [saStmtF]
      have hc := saExprF_scopes n cond st
      cases elseB with
      | none =>
        have h2 := ih thenB (saExprF n st cond)
        constructor
        · rw [h2.1, hc]
        · rw [h2.2, hc]
      | some e =>
        have h2 := ih thenB (saExprF n st cond)
        have h3 := ih e (saStmtF n (saExprF n st cond) thenB)
        constructor
        · rw [h3.1, h2.1, hc]
        · rw [h3.2, h2.2, hc]
    | whileS cond body line col =>
      simp only [saStmtF]
      have hc := saExprF_scopes n cond st
      have h2 := ih body (saExprF n st cond)
      constructor
      · rw [h2.1, hc]
      · rw [h2.2, hc]
    | forS fInit cond incr body line col =>
      simp [saStmtF]
    | exprStmt e line col =>
      simp only [saStmtF]
      have := saExprF_scopes n e st
      exact ⟨by rw [this], by rw [this]⟩

theorem head?_mem {α : Type} {l : List α} {a : α} (h : l.head? = some a) : a ∈ l := by
  cases l <;> simp_all

theorem lookupFrame_frameSet (f : List Symbol) (sym : Symbol) :
    lookupFrame (frameSet f sym) (symName sym) = some sym := by
  induction f with
  | nil => simp [frameSet, lookupFrame]
  | cons t r ih =>
    by_cases h : symName t = symName sym
    · simp [frameSet, h, lookupFrame]
    · simp only [frameSet, if_neg h]
      simp only [lookupFrame, List.find?_cons] at ih ⊢
      have hb : (symName t == symName sym) = false := by
        simp [h]
      rw [hb]
      exact ih

theorem resolve_define (s : List (List Symbol)) (sym : Symbol) (h : s ≠ []) :
    resolveS (defineS s sym) (symName sym) = some sym := by
  cases s with
  | nil => exact absurd rfl h
  | cons f p =>
    simp only [defineS, resolveS, lookupFrame_frameSet]

theorem resolve_none_containsLocal (s : List (List Symbol)) (nm : List Char)
    (h : resolveS s nm = none) : containsLocal s nm = false := by
  cases s with
  | nil => simp [containsLocal, lookupFrame]
  | cons f p =>
    simp only [resolveS] at h
    cases hl : lookupFrame f nm with
    | none => simp [containsLocal, hl]
    | some sym => rw [hl] at h; cases h

/-- C1: the spec scenario claims that running the full pipeline on the
source text var x: Int = 42; yields zero parse errors, zero type errors,
zero semantic errors, and one recorded variable Definition for x. The
parser of the source is a placeholder that only parses expression
statements, so the code instead yields exactly one parse error, an empty
Program, no type or semantic errors, and no Definition named x: this
theorem evaluates the whole embedded pipeline at that input. -/
theorem c1_pipeline_on_var_decl :
    ((parseSource (cs "var x: Int = 42;")).2).length = 1 ∧
    ((parseSource (cs "var x: Int = 42;")).1).isEmpty = true ∧
    tcCheckProgram (parseSource (cs "var x: Int = 42;")).1 = [] ∧
    (saAnalyze (parseSource (cs "var x: Int = 42;")).1).errors = [] ∧
    ((saAnalyze (parseSource (cs "var x: Int = 42;")).1).defs.filter
      (fun d => d.name == cs "x")) = [] :=
  ⟨rfl, rfl, rfl, rfl, rfl⟩

/-- C6: after the type checker or the semantic analyzer walks a program,
its scope chain has the same depth and the same outer scopes it started
with: every child scope installed for a function body, block or for loop
is popped again, so only the innermost (root, at top level) scope can
have gained symbols and no child scope leaks out of the walk. Stated for
every fuel, every start state, and in particular for the analyze wrapper
started at the root-only initial state. -/
theorem c6_scope_restoration (prog : List Stmt) (n : Nat) (st : TC) (sa : Sem) :
    ((tcStmtsF n st prog).scopes.length = st.scopes.length ∧
      (tcStmtsF n st prog).scopes.drop 1 = st.scopes.drop 1) ∧
    ((saStmtsF n sa prog).scopes.length = sa.scopes.length ∧
      (saStmtsF n sa prog).scopes.drop 1 = sa.scopes.drop 1) ∧
    (tcStmtsF n tcInit prog).scopes.length = 1 ∧
    (saAnalyze prog).scopes.length = 1 := by
  have htc : ∀ (st : TC),
      (tcStmtsF n st prog).scopes.length = st.scopes.length ∧
        (tcStmtsF n st prog).scopes.drop 1 = st.scopes.drop 1 := by
    intro st0
    have h := foldl_pres (fun a q => tcStmtF n a q)
      (fun a : TC => (a.scopes.length, a.scopes.drop 1))
      (fun a b => by
        have hf := tcStmtF_frame n b a
        simp [hf.1, hf.2]) prog st0
    exact ⟨congrArg Prod.fst h, congrArg Prod.snd h⟩
  have hsa : ∀ (sa : Sem),
      (saStmtsF n sa prog).scopes.length = sa.scopes.length ∧
        (saStmtsF n sa prog).scopes.drop 1 = sa.scopes.drop 1 := by
    intro sa0
    have h := foldl_pres (fun a q => saStmtF n a q)
      (fun a : Sem => (a.scopes.length, a.scopes.drop 1))
      (fun a b => by
        have hf := saStmtF_frame n b a
        simp [hf.1, hf.2]) prog sa0
    exact ⟨congrArg Prod.fst h, congrArg Prod.snd h⟩
  refine ⟨htc st, hsa sa, (htc tcInit).1, ?_⟩
  show (saStmtsF runFuel saInit prog).scopes.length = 1
  have h := foldl_pres (fun a q => saStmtF runFuel a q)
    (fun a : Sem => a.scopes.length)
    (fun a b => (saStmtF_frame runFuel b a).1) prog saInit
  exact h

/-- C7: Lexer.tokenize is total: for every source its token list ends in
exactly one EOF token (the only EOF token in the list), and any head
character that matches no rule of the dispatch makes the scanner emit an
ERROR token holding exactly that character and consume exactly it. -/
theorem c7_lexer_total (src : List Char) :
    (∃ pre l2 c2, tokenize src = pre ++ [⟨.EOF, [], l2, c2⟩] ∧
      ∀ t ∈ pre, t.type ≠ .EOF) ∧
    (∀ (c : Char) (l : List Char) (line col : Nat), ¬ MatchesRule c l →
      scanToken c l line col = ⟨some ⟨.ERROR, [c], line, col⟩, [c], l⟩) :=
  ⟨tokenizeAux_eof (src.length + 1) src 1 1,
   fun c l line col h => scan_unrecognized c l line col h⟩

/-- Witness for C7: the at-sign matches no lexing rule and scans to a
single-character ERROR token. -/
theorem c7_lexer_total_witness :
    ¬ MatchesRule '@' [] ∧
      scanToken '@' [] 1 1 = ⟨some ⟨.ERROR, ['@'], 1, 1⟩, ['@'], []⟩ :=
  ⟨by decide, (c7_lexer_total []).2 '@' [] 1 1 (by decide)⟩

/-- Counterexample for C2: the source 123. lexes to a FLOAT token whose
value is the normalized lexeme 123.0, which is not a contiguous substring
of the source, contradicting the claim for this non-EOF token. -/
theorem c2_lexeme_not_substring :
    ∃ t, t ∈ tokenize (cs "123.") ∧ t.type ≠ .EOF ∧
      ¬ ∃ p su, cs "123." = p ++ t.value ++ su := by
  refine ⟨⟨.FLOAT, cs "123.0", 1, 1⟩, by decide, by decide, ?_⟩
  rintro ⟨p, su, h⟩
  have hl := congrArg List.length h
  simp only [List.length_append] at hl
  have h4 : (cs "123.").length = 4 := by decide
  have h5 : (cs "123.0").length = 5 := by decide
  rw [h4] at hl
  rw [h5] at hl
  omega

/-- C2 (amended): for every source and every token other than the EOF
sentinel whose kind the lexer does not rewrite (not a string token, whose
quotes are stripped and escapes decoded; not an error token, which may
come from an unterminated string; not a float token, which may gain a
normalized trailing zero), the token's value occurs contiguously in the
source and (line, column) is exactly the position of its first character,
measured by advancing from (1,1) over the preceding text. -/
theorem c2_token_text_occurs (src : List Char) (t : Token)
    (ht : t ∈ tokenize src) (h1 : t.type ≠ .EOF) (h2 : t.type ≠ .STRING)
    (h3 : t.type ≠ .ERROR) (h4 : t.type ≠ .FLOAT) :
    ∃ p su, src = p ++ t.value ++ su ∧ advLC 1 1 p = (t.line, t.column) := by
  refine tok_occurs_aux (src.length + 1) src 1 1 [] src (by simp) rfl t ht ?_
  simp [exKinds, h1, h2, h3, h4]

/-- Witness for C2: the integer token 12 of the source ab 12 occurs at
line 1, column 4. -/
theorem c2_token_text_occurs_witness :
    (⟨.INTEGER, cs "12", 1, 4⟩ : Token) ∈ tokenize (cs "ab 12") ∧
      ∃ p su, cs "ab 12" = p ++ (⟨.INTEGER, cs "12", 1, 4⟩ : Token).value ++ su ∧
        advLC 1 1 p = ((⟨.INTEGER, cs "12", 1, 4⟩ : Token).line,
          (⟨.INTEGER, cs "12", 1, 4⟩ : Token).column) :=
  ⟨by decide,
   c2_token_text_occurs (cs "ab 12") ⟨.INTEGER, cs "12", 1, 4⟩ (by decide)
     (by decide) (by decide) (by decide) (by decide)⟩

/-- C4: Parser.parse never lets a ParseError escape: a statement parse
that raises has its error caught, appended to the error list, and is
followed by synchronization; after synchronize the parser is at the end
of input, or just past a semicolon, or looking at a statement-start
token; and the parse loop's result is stable once its fuel exceeds the
number of remaining tokens, so the loop always returns a Program. -/
theorem c4_parse_recovery :
    (∀ (st : PState) (n : Nat) (e : PError) (st' : PState), ¬ isAtEnd st →
      declP st = .error (e, st') →
      parseLoopF (n + 1) st =
        ((parseLoopF n (synchronizeP st')).1,
          e :: (parseLoopF n (synchronizeP st')).2)) ∧
    (∀ st : PState, SyncPost (synchronizeP st)) ∧
    (∀ (st : PState) (fuel : Nat), st.tokens.length - st.current < fuel →
      parseLoopF fuel st = parseLoopF (fuel + 1) st) := by
  refine ⟨?_, synchronizeP_post, fun st fuel h => parseLoopF_stable fuel st h⟩
  intro st n e st' hend hdec
  rw [parseLoopF, if_neg hend, hdec]

/-- Witness for C4: on the source 1 2; the first statement parse raises
at the token 2; the loop records that error and synchronizes, and the
synchronize postcondition and fuel stability hold at this state. -/
theorem c4_parse_recovery_witness :
    ¬ isAtEnd ⟨tokenize (cs "1 2;"), 0⟩ ∧
    declP ⟨tokenize (cs "1 2;"), 0⟩ =
      .error (⟨⟨.INTEGER, cs "2", 1, 3⟩, cs "Expected ';' after expression."⟩,
        ⟨tokenize (cs "1 2;"), 1⟩) ∧
    parseLoopF 4 ⟨tokenize (cs "1 2;"), 0⟩ =
      ((parseLoopF 3 (synchronizeP ⟨tokenize (cs "1 2;"), 1⟩)).1,
        ⟨⟨.INTEGER, cs "2", 1, 3⟩, cs "Expected ';' after expression."⟩ ::
          (parseLoopF 3 (synchronizeP ⟨tokenize (cs "1 2;"), 1⟩)).2) ∧
    SyncPost (synchronizeP ⟨tokenize (cs "1 2;"), 0⟩) ∧
    parseLoopF 5 ⟨tokenize (cs "1 2;"), 0⟩ = parseLoopF 6 ⟨tokenize (cs "1 2;"), 0⟩ :=
  ⟨by decide, by rfl,
   c4_parse_recovery.1 ⟨tokenize (cs "1 2;"), 0⟩ 3 _ _ (by decide) (by rfl),
   c4_parse_recovery.2.1 ⟨tokenize (cs "1 2;"), 0⟩,
   c4_parse_recovery.2.2 ⟨tokenize (cs "1 2;"), 0⟩ 5 (by decide)⟩

/-- C5: the type the checker computes for a binary expression agrees with
the specification's case analysis (specBinaryType): the operands are
visited left then right, then arithmetic on two Ints gives Int, a numeric
mix gives Float, plus with a String operand gives String, any comparison
gives Boolean with no further validation, and every remaining case
appends one incompatibility error and yields the sentinel Unknown. -/
theorem c5_binary_typing (n : Nat) (st : TC) (l : Expr) (op : List Char)
    (r : Expr) (line col : Nat) :
    tcExprF (n + 1) st (.binary l op r line col) =
      match specBinaryType op (tcExprF n st l).1 (tcExprF n (tcExprF n st l).2 r).1 with
      | some t => (t, (tcExprF n (tcExprF n st l).2 r).2)
      | none =>
        (cs "Unknown",
         pushErr (tcExprF n (tcExprF n st l).2 r).2
           (cs "Cannot apply operator '" ++ op ++ cs "' to types '" ++
             (tcExprF n st l).1 ++ cs "' and '" ++
             (tcExprF n (tcExprF n st l).2 r).1 ++ cs "'") line col) := by
  simp only [tcExprF, specBinaryType]
  split_ifs <;> rfl

/-- C8: whenever find_definition returns a definition d for a name, d
carries that name, and find_all_references at d's location returns, in
recorded order, exactly the references whose name matches and whose bound
definition sits at d's location: every returned reference satisfies both,
the returned list is a sublist of the recorded references, and every
recorded reference satisfying both is returned. -/
theorem c8_find_references_coherent (st : Sem) (name : List Char)
    (loc : Location) (d : Definition)
    (h : findDefinitionS st name loc = some d) :
    d.name = name ∧
    (∀ r ∈ findAllReferencesS st name d.location,
      r.name = name ∧ r.definition.location = d.location) ∧
    List.Sublist (findAllReferencesS st name d.location) st.refs ∧
    (∀ r ∈ st.refs, r.name = name → r.definition.location = d.location →
      r ∈ findAllReferencesS st name d.location) := by
  refine ⟨?_, ?_, ?_, ?_⟩
  · have hd := head?_mem h
    have := List.mem_filter.mp hd
    simpa using this.2
  · intro r hr
    have := List.mem_filter.mp hr
    simp only [Bool.and_eq_true, beq_iff_eq] at this
    obtain ⟨-, ⟨⟨hn, hline⟩, hcol⟩⟩ := this
    refine ⟨hn, ?_⟩
    cases hrl : r.definition.location with
    | mk a b =>
      cases hdl : d.location with
      | mk a2 b2 =>
        rw [hrl, hdl] at hline hcol
        simp only [hrl, hdl] at *
        simp [hline, hcol]
  · exact List.filter_sublist st.refs
  · intro r hr hn hl
    refine List.mem_filter.mpr ⟨hr, ?_⟩
    simp [hn, hl]

/-- Witness for C8: in the analysis of var x = 1; x; the definition of x
found for the name x is at (1,1) and the reference list it induces
satisfies the coherence properties. -/
theorem c8_find_references_coherent_witness :
    findDefinitionS (saAnalyze progC8) (cs "x") ⟨1, 1⟩ =
      some ⟨cs "x", cs "variable", ⟨1, 1⟩, cs "inferred", []⟩ ∧
    ((⟨cs "x", cs "variable", ⟨1, 1⟩, cs "inferred", []⟩ : Definition).name = cs "x" ∧
     (∀ r ∈ findAllReferencesS (saAnalyze progC8) (cs "x")
         (⟨cs "x", cs "variable", ⟨1, 1⟩, cs "inferred", []⟩ : Definition).location,
       r.name = cs "x" ∧ r.definition.location =
         (⟨cs "x", cs "variable", ⟨1, 1⟩, cs "inferred", []⟩ : Definition).location) ∧
     List.Sublist (findAllReferencesS (saAnalyze progC8) (cs "x")
       (⟨cs "x", cs "variable", ⟨1, 1⟩, cs "inferred", []⟩ : Definition).location)
       (saAnalyze progC8).refs ∧
     (∀ r ∈ (saAnalyze progC8).refs, r.name = cs "x" →
       r.definition.location =
         (⟨cs "x", cs "variable", ⟨1, 1⟩, cs "inferred", []⟩ : Definition).location →
       r ∈ findAllReferencesS (saAnalyze progC8) (cs "x")
         (⟨cs "x", cs "variable", ⟨1, 1⟩, cs "inferred", []⟩ : Definition).location)) :=
  ⟨by rfl,
   c8_find_references_coherent (saAnalyze progC8) (cs "x") ⟨1, 1⟩
     ⟨cs "x", cs "variable", ⟨1, 1⟩, cs "inferred", []⟩ (by rfl)⟩

/-- Counterexample for C3: in the program print = print(1); the
assignment target resolves to the built-in FunctionSymbol print, yet the
checker reports no error at all, because the mutability check only
applies to VariableSymbols and the value's type Void equals the function
symbol's type_name: the claim that a type error is emitted unless the
target is a mutable variable is false. -/
theorem c3_function_target_no_error :
    tcCheckProgram progC3 = [] ∧
      isFuncSymO (resolveS tcInit.scopes (cs "print")) = true :=
  ⟨rfl, rfl⟩

/-- C3 (amended): visit_assignment_expression on an Identifier target
reports an undefined-variable error (without visiting the value) when the
name does not resolve; when it resolves to any symbol, the immutability
check fires only for VariableSymbols with is_mutable false, after which
the value is checked and a mismatch error is appended exactly when the
value's type differs from the symbol's type_name (so a FunctionSymbol
target with a value of its own type_name passes unflagged); non-Identifier
targets report an invalid-target error without visiting the value. -/
theorem c3_assignment_errors (n : Nat) (st : TC) (vn : List Char)
    (l2 c2 : Nat) (value : Expr) (line col : Nat) :
    (resolveS st.scopes vn = none →
      tcExprF (n + 1) st (.assign (.ident vn l2 c2) value line col) =
        (cs "Unknown",
         pushErr st (cs "Undefined variable '" ++ vn ++ cs "'") line col)) ∧
    (∀ sym, resolveS st.scopes vn = some sym → isImmutableVar sym = false →
      (tcExprF n st value).1 = symTypeName sym →
      tcExprF (n + 1) st (.assign (.ident vn l2 c2) value line col) =
        (symTypeName sym, (tcExprF n st value).2)) ∧
    (∀ sym, resolveS st.scopes vn = some sym → isImmutableVar sym = false →
      (tcExprF n st value).1 ≠ symTypeName sym →
      tcExprF (n + 1) st (.assign (.ident vn l2 c2) value line col) =
        (symTypeName sym,
         pushErr (tcExprF n st value).2
           (cs "Cannot assign a value of type '" ++ (tcExprF n st value).1 ++
             cs "' to a variable of type '" ++ symTypeName sym ++ cs "'")
           line col)) ∧
    (∀ (t v : Expr) (li co : Nat), (∀ nm a b, t ≠ .ident nm a b) →
      tcExprF (n + 1) st (.assign t v li co) =
        (cs "Unknown", pushErr st (cs "Invalid assignment target") li co)) := by
  refine ⟨?_, ?_, ?_, ?_⟩
  · intro h
    simp [tcExprF, h]
  · intro sym hs him hv
    simp [tcExprF, hs, him, hv]
  · intro sym hs him hv
    simp [tcExprF, hs, him, hv]
  · intro t v li co h
    cases t with
    | ident nm a b => exact absurd rfl (h nm a b)
    | intLit x a b => rfl
    | floatLit x a b => rfl
    | strLit x a b => rfl
    | boolLit x a b => rfl
    | binary x o y a b => rfl
    | unary o y a b => rfl
    | call x y a b => rfl
    | assign x y a b => rfl
    | arrayLit x a b => rfl
    | indexE x y a b => rfl

/-- Witness for C3 (amended): print resolves to the built-in function
symbol, is not an immutable variable, the value print(1) types as its
type_name Void, and the assignment adds no error of its own. -/
theorem c3_assignment_errors_witness :
    resolveS tcInit.scopes (cs "print") = some printSym ∧
    isImmutableVar printSym = false ∧
    (tcExprF 3 tcInit (Expr.call (Expr.ident (cs "print") 1 9)
      [Expr.intLit 1 1 15] 1 9)).1 = symTypeName printSym ∧
    tcExprF 4 tcInit (.assign (.ident (cs "print") 1 1)
        (Expr.call (Expr.ident (cs "print") 1 9) [Expr.intLit 1 1 15] 1 9) 1 1) =
      (symTypeName printSym,
       (tcExprF 3 tcInit (Expr.call (Expr.ident (cs "print") 1 9)
         [Expr.intLit 1 1 15] 1 9)).2) :=
  ⟨rfl, rfl, rfl,
   (c3_assignment_errors 3 tcInit (cs "print") 1 1
     (Expr.call (Expr.ident (cs "print") 1 9) [Expr.intLit 1 1 15] 1 9) 1 1).2.1
     printSym rfl rfl rfl⟩

/-- Counterexample for C9: in var x = print(1, x); the initializer
contains the identifier x and no x is in scope beforehand, yet the type
checker reports only the arity error for the call: the arguments of an
arity-mismatched call are never visited, so no undefined-identifier error
for x is produced, contradicting the claim as stated. -/
theorem c9_unvisited_identifier :
    containsIdentF 5 initC9 (cs "x") = true ∧
    (resolveS tcInit.scopes (cs "x")).isNone = true ∧
    tcCheckProgram progC9 =
      [⟨cs "Function 'print' expects 1 arguments, but got 2", 1, 9⟩] ∧
    ((saAnalyze progC9).errors).length = 0 :=
  ⟨rfl, rfl, rfl, rfl⟩

/-- C9 (amended): when the initializer is itself the identifier of the
variable being declared and the name is not in scope, the type checker,
which visits the initializer before defining the symbol, records exactly
one undefined-identifier error and then defines the variable with the
sentinel type Unknown; the semantic analyzer, which records the
Definition and defines the symbol before visiting the initializer,
records no error and appends a Reference at the identifier's position
bound to the just-recorded Definition (the first Definition of that name,
so no earlier Definition of the name may exist). -/
theorem c9_self_reference (n : Nat) (st : TC) (sa : Sem) (name : List Char)
    (l2 c2 line col : Nat)
    (htc : resolveS st.scopes name = none)
    (hsa : resolveS sa.scopes name = none)
    (hscopes : sa.scopes ≠ [])
    (hdefs : sa.defs.filter (fun d => d.name == name) = []) :
    tcStmtF (n + 2) st (.varDecl name none (some (.ident name l2 c2)) line col) =
      { st with
          errors := st.errors ++
            [⟨cs "Undefined identifier '" ++ name ++ cs "'", l2, c2⟩],
          scopes := defineS st.scopes (.varS name (cs "Unknown") true) } ∧
    saStmtF (n + 2) sa (.varDecl name none (some (.ident name l2 c2)) line col) =
      { sa with
          defs := sa.defs ++ [⟨name, cs "variable", ⟨line, col⟩, cs "inferred", []⟩],
          scopes := defineS sa.scopes (.varS name (cs "inferred") true),
          refs := sa.refs ++ [⟨name, ⟨l2, c2⟩,
            ⟨name, cs "variable", ⟨line, col⟩, cs "inferred", []⟩⟩] } := by
  have hcl : containsLocal st.scopes name = false :=
    resolve_none_containsLocal _ _ htc
  have hcl2 : containsLocal sa.scopes name = false :=
    resolve_none_containsLocal _ _ hsa
  constructor
  · simp only [tcStmtF, tcExprF, htc, Option.getD_none]
    rw [if_neg (by simp [pushErr, hcl])]
    simp [pushErr]
  · simp only [saStmtF, Option.getD_none]
    rw [if_neg (by simp [hcl2])]
    simp only [saExprF]
    have hres : resolveS
        (defineS sa.scopes (Symbol.varS name (cs "inferred") true)) name =
        some (Symbol.varS name (cs "inferred") true) :=
      resolve_define sa.scopes (Symbol.varS name (cs "inferred") true) hscopes
    rw [hres]
    have hfd : findDefinitionS
        { sa with
            defs := sa.defs ++ [⟨name, cs "variable", ⟨line, col⟩, cs "inferred", []⟩],
            scopes := defineS sa.scopes (.varS name (cs "inferred") true) }
        name ⟨l2, c2⟩ =
        some ⟨name, cs "variable", ⟨line, col⟩, cs "inferred", []⟩ := by
      simp [findDefinitionS, List.filter_append, hdefs]
    rw [hfd]

/-- Witness for C9 (amended): concrete instantiation at the initial
checker and analyzer states with the fresh name x. -/
theorem c9_self_reference_witness :
    resolveS tcInit.scopes (cs "x") = none ∧
    resolveS saInit.scopes (cs "x") = none ∧
    saInit.scopes ≠ [] ∧
    saInit.defs.filter (fun d => d.name == cs "x") = [] ∧
    (tcStmtF 5 tcInit (.varDecl (cs "x") none (some (.ident (cs "x") 1 9)) 1 1) =
      { tcInit with
          errors := tcInit.errors ++
            [⟨cs "Undefined identifier '" ++ cs "x" ++ cs "'", 1, 9⟩],
          scopes := defineS tcInit.scopes (.varS (cs "x") (cs "Unknown") true) } ∧
     saStmtF 5 saInit (.varDecl (cs "x") none (some (.ident (cs "x") 1 9)) 1 1) =
      { saInit with
          defs := saInit.defs ++ [⟨cs "x", cs "variable", ⟨1, 1⟩, cs "inferred", []⟩],
          scopes := defineS saInit.scopes (.varS (cs "x") (cs "inferred") true),
          refs := saInit.refs ++ [⟨cs "x", ⟨1, 9⟩,
            ⟨cs "x", cs "variable", ⟨1, 1⟩, cs "inferred", []⟩⟩] }) :=
  ⟨rfl, rfl, by simp [saInit], rfl,
   c9_self_reference 3 tcInit saInit (cs "x") 1 9 1 1 rfl rfl
     (by simp [saInit]) rfl⟩

/-- Counterexample for C10: the program var x; var x; consists of two
variable declarations with neither annotation nor initializer, and the
second produces a redeclaration type error, contradicting the claim that
such declarations never produce an error. -/
theorem c10_redeclaration_error :
    tcCheckProgram progC10 =
      [⟨cs "Variable 'x' is already defined in this scope", 2, 1⟩] := rfl

/-- C10 (amended): a variable declaration with neither annotation nor
initializer whose name is not already defined in the current scope adds
no type error and defines the variable with type Void, so a later use of
the name types as Void; the semantic analyzer always records the
corresponding Definition with type_name inferred, whatever the scope
already holds. -/
theorem c10_untyped_decl (n m k : Nat) (st : TC) (name : List Char)
    (line col l2 c2 : Nat)
    (hcl : containsLocal st.scopes name = false)
    (hne : st.scopes ≠ []) :
    tcStmtF (n + 1) st (.varDecl name none none line col) =
      { st with scopes := defineS st.scopes (.varS name (cs "Void") true) } ∧
    (tcExprF (m + 1)
        { st with scopes := defineS st.scopes (.varS name (cs "Void") true) }
        (.ident name l2 c2)).1 = cs "Void" ∧
    ∀ sa : Sem, (saStmtF (k + 1) sa (.varDecl name none none line col)).defs =
      sa.defs ++ [⟨name, cs "variable", ⟨line, col⟩, cs "inferred", []⟩] := by
  refine ⟨?_, ?_, ?_⟩
  · simp only [tcStmtF, Option.getD_none]
    rw [if_neg (by simp [hcl])]
  · simp only [tcExprF]
    have hres : resolveS
        (defineS st.scopes (Symbol.varS name (cs "Void") true)) name =
        some (Symbol.varS name (cs "Void") true) :=
      resolve_define st.scopes (Symbol.varS name (cs "Void") true) hne
    rw [hres]
    rfl
  · intro sa
    simp only [saStmtF]
    split_ifs <;> rfl

/-- Witness for C10 (amended): concrete instantiation at the initial
checker state with the fresh name x and the initial analyzer state. -/
theorem c10_untyped_decl_witness :
    containsLocal tcInit.scopes (cs "x") = false ∧
    tcInit.scopes ≠ [] ∧
    (tcStmtF 4 tcInit (.varDecl (cs "x") none none 1 1) =
      { tcInit with scopes := defineS tcInit.scopes (.varS (cs "x") (cs "Void") true) } ∧
     (tcExprF 4 { tcInit with
        scopes := defineS tcInit.scopes (.varS (cs "x") (cs "Void") true) }
       (.ident (cs "x") 2 1)).1 = cs "Void" ∧
     ∀ sa : Sem, (saStmtF 4 sa (.varDecl (cs "x") none none 1 1)).defs =
       sa.defs ++ [⟨cs "x", cs "variable", ⟨1, 1⟩, cs "inferred", []⟩]) :=
  ⟨rfl, by simp [tcInit],
   c10_untyped_decl 3 3 3 tcInit (cs "x") 1 1 2 1 rfl (by simp [tcInit])⟩
